import Mathlib

/-!
Verification of the qlZipInfo archive decoders.

This file embeds the three custom decoders of the repository in Lean:

* `macosroman2ascii` (src/qlZipInfo/macosroman2ascii.c) — the MacRoman to
  ASCII transliterator;
* the StuffIt directory decoder (`sitInitFileHandle` / `sitGetNextEntry`,
  sit.c) — files are modelled as a byte list together with a stream
  position and the stdio end-of-file indicator;
* the BinHex 4.0 decoder (`hqxFindHeader`, `hqxGetByteWithRL`,
  `hqxUpdateCRC`, `hqxGetHeader`, ... in
  src/qlZipInfo/GeneratePreviewForURL.m).  `hqxFindHeader` scans the raw
  file bytes and is modelled on the raw byte list.  The byte-oriented
  decoder layers (`hqxGetByteWithRL` upward) sit on top of
  `hqxGetByteRaw`, the 6-bit unpacker; the unpacker's ring buffer is
  modelled abstractly as the sequence of bytes it delivers, so the state
  carries the list of bytes still to be produced by `hqxGetByteRaw`.

Machine integers are modelled as `Nat` with explicit masking where the C
code masks (`& 0xff`, `& 0xffff`, short wrap-around), and as `Int` where
the C code uses signed `short`/`long` results (`-1` error sentinels).
-/

/-! ## MacRoman to ASCII transliterator (macosroman2ascii.c) -/

/-- The `switch(curChar)` table of `macosroman2ascii` for bytes above
`0x7E` (`'~'`) : nearest-ASCII approximations, `'_'` (95) as default. -/
def mac2asciiTable (c : Nat) : Nat :=
  match c with
  | 0x80 | 0x81 | 0xCB | 0xCC | 0xE5 | 0xE7 => 65   -- 'A'
  | 0x82 => 67                                      -- 'C'
  | 0x83 | 0xE6 | 0xE8 | 0xE9 => 69                 -- 'E'
  | 0x84 => 78                                      -- 'N'
  | 0x85 | 0xCD | 0xEE | 0xEF | 0xF1 => 79          -- 'O'
  | 0x86 | 0xF2 | 0xF3 | 0xF4 => 85                 -- 'U'
  | 0x87 | 0x88 | 0x89 | 0x8A | 0x8B | 0x8C | 0xBB => 97   -- 'a'
  | 0x8D => 99                                      -- 'c'
  | 0x8E | 0x8F | 0x90 | 0x91 => 101                -- 'e'
  | 0x92 | 0x93 | 0x94 | 0x95 | 0xF5 => 105         -- 'i'
  | 0x96 => 110                                     -- 'n'
  | 0x97 | 0x98 | 0x99 | 0x9A | 0x9B | 0xBC => 111  -- 'o'
  | 0x9C | 0x9D | 0x9E | 0x9F | 0xB5 => 117         -- 'u'
  | 0xA7 => 66                                      -- 'B'
  | 0xB6 => 100                                     -- 'd'
  | 0xC5 => 102                                     -- 'f'
  | 0xD2 | 0xD3 | 0xE3 | 0xFD => 34                 -- double quote
  | 0xAB | 0xD4 | 0xD5 | 0xE2 => 39                 -- single quote
  | 0xCA => 32                                      -- space
  | 0xD0 | 0xD1 | 0xF8 => 45                        -- '-'
  | 0xD8 => 121                                     -- 'y'
  | 0xD9 => 89                                      -- 'Y'
  | 0xDA => 47                                      -- '/'
  | 0xDC => 60                                      -- '<'
  | 0xDD => 62                                      -- '>'
  | 0xEA | 0xEB | 0xEC | 0xED => 73                 -- 'I'
  | 0xF6 => 94                                      -- '^'
  | 0xF7 => 126                                     -- '~'
  | 0xE1 | 0xFA => 46                               -- '.'
  | _ => 95                                         -- '_'

/-- Per-character transliteration of `macosroman2ascii`:
control bytes become `'_'`, bytes above `'~'` go through the table,
printable ASCII passes through. -/
def mac2asciiChar (c : Nat) : Nat :=
  if c < 32 then 95 else if 126 < c then mac2asciiTable c else c

/-- The copying loop of `macosroman2ascii`.  The second argument is the
remaining iteration budget `min macosromanStrLen asciiStrLen`; reading
beyond the supplied list models the C code reading a zero byte, which
terminates the scan.  The cast of `macosromanStr[i]` to `unsigned char`
is modelled by `% 256`. -/
def m2aScan : List Nat → Nat → List Nat
  | _, 0 => []
  | [], _ + 1 => []
  | c :: rest, n + 1 =>
    if c % 256 = 0 then []
    else mac2asciiChar (c % 256) :: m2aScan rest n

/-- `macosroman2ascii(macosromanStr, macosromanStrLen, asciiStr, asciiStrLen)`.
Returns `none` for the `-1` error (a length `≤ 0`; the null-pointer checks
have no counterpart for Lean lists), otherwise the contents of the output
buffer: the scanned prefix followed by the zero fill left by `memset`. -/
def macosroman2ascii (macosromanStr : List Nat)
    (macosromanStrLen asciiStrLen : Int) : Option (List Nat) :=
  if macosromanStrLen ≤ 0 ∨ asciiStrLen ≤ 0 then none
  else
    let w := m2aScan macosromanStr (min macosromanStrLen asciiStrLen).toNat
    some (w ++ List.replicate (asciiStrLen.toNat - w.length) 0)

lemma m2aScan_length_le (src : List Nat) (n : Nat) :
    (m2aScan src n).length ≤ n := by
  induction n generalizing src with
  | zero => simp [m2aScan]
  | succ n ih =>
    cases src with
    | nil => simp [m2aScan]
    | cons c rest =>
      by_cases h : c % 256 = 0
      · simp [m2aScan, h]
      · simp only [m2aScan, if_neg h, List.length_cons]
        exact Nat.succ_le_succ (ih rest)

set_option maxRecDepth 4096 in
lemma mac2asciiChar_range : ∀ c, c < 256 →
    32 ≤ mac2asciiChar c ∧ mac2asciiChar c ≤ 126 := by decide

lemma mac2asciiChar_fixed (x : Nat) (h1 : 32 ≤ x) (h2 : x ≤ 126) :
    mac2asciiChar x = x := by
  unfold mac2asciiChar
  rw [if_neg (by omega), if_neg (by omega)]

lemma m2aScan_getD (n : Nat) (src : List Nat) (i : Nat) :
    (m2aScan src n).getD i 0 =
      if i < n ∧ (∀ j, j ≤ i → src.getD j 0 % 256 ≠ 0)
      then mac2asciiChar (src.getD i 0 % 256) else 0 := by
  induction n generalizing src i with
  | zero => simp [m2aScan]
  | succ n ih =>
    cases src with
    | nil =>
      have hcond : ¬ (i < n + 1 ∧ ∀ j, j ≤ i → (List.getD [] j 0) % 256 ≠ 0) := by
        rintro ⟨-, h2⟩
        exact h2 i le_rfl (by simp)
      rw [if_neg hcond]
      simp [m2aScan]
    | cons c rest =>
      by_cases h : c % 256 = 0
      · have hcond : ¬ (i < n + 1 ∧ ∀ j, j ≤ i → ((c :: rest).getD j 0) % 256 ≠ 0) := by
          rintro ⟨-, h2⟩
          exact h2 0 (Nat.zero_le _) (by simpa using h)
        rw [if_neg hcond]
        simp [m2aScan, h]
      · cases i with
        | zero =>
          have hc : (0 : Nat) < n + 1 ∧
              ∀ j, j ≤ 0 → ((c :: rest).getD j 0) % 256 ≠ 0 := by
            refine ⟨Nat.succ_pos _, ?_⟩
            intro j hj
            interval_cases j
            simpa using h
          rw [if_pos hc]
          simp [m2aScan, h]
        | succ i =>
          simp only [m2aScan, if_neg h, List.getD_cons_succ, ih]
          congr 1
          simp only [eq_iff_iff]
          constructor
          · rintro ⟨h1, h2⟩
            refine ⟨by omega, ?_⟩
            intro j hj
            cases j with
            | zero => simpa using h
            | succ j => simpa using h2 j (by omega)
          · rintro ⟨h1, h2⟩
            refine ⟨by omega, ?_⟩
            intro j hj
            simpa using h2 (j + 1) (by omega)

/-- Transliterated characters are never the terminating zero byte. -/
lemma m2aScan_ne_zero (src : List Nat) (n : Nat) :
    ∀ x ∈ m2aScan src n, 32 ≤ x ∧ x ≤ 126 := by
  induction n generalizing src with
  | zero => simp [m2aScan]
  | succ n ih =>
    cases src with
    | nil => simp [m2aScan]
    | cons c rest =>
      by_cases h : c % 256 = 0
      · simp [m2aScan, h]
      · simp only [m2aScan, if_neg h, List.mem_cons]
        rintro x (rfl | hx)
        · exact mac2asciiChar_range _ (Nat.mod_lt _ (by norm_num))
        · exact ih rest x hx

lemma m2aScan_replicate_zero (k n : Nat) :
    m2aScan (List.replicate k 0) n = [] := by
  cases n with
  | zero => simp [m2aScan]
  | succ n =>
    cases k with
    | zero => simp [m2aScan]
    | succ k => simp [List.replicate_succ, m2aScan]

lemma m2aScan_scan (src : List Nat) (n k : Nat) :
    m2aScan (m2aScan src n ++ List.replicate k 0) n = m2aScan src n := by
  induction n generalizing src with
  | zero => simp [m2aScan]
  | succ n ih =>
    cases src with
    | nil => simpa [m2aScan] using m2aScan_replicate_zero k (n + 1)
    | cons c rest =>
      by_cases h : c % 256 = 0
      · simpa [m2aScan, h] using m2aScan_replicate_zero k (n + 1)
      · have hd := mac2asciiChar_range (c % 256) (Nat.mod_lt _ (by norm_num))
        have hd1 : mac2asciiChar (c % 256) % 256 = mac2asciiChar (c % 256) :=
          Nat.mod_eq_of_lt (by omega)
        have hd2 : mac2asciiChar (c % 256) % 256 ≠ 0 := by omega
        have hid : mac2asciiChar (mac2asciiChar (c % 256) % 256) =
            mac2asciiChar (c % 256) := by
          rw [hd1]
          exact mac2asciiChar_fixed _ hd.1 hd.2
        simp only [m2aScan, if_neg h, List.cons_append, if_neg hd2, hid]
        rw [ih]

lemma append_replicate_getD (w : List Nat) (k i : Nat) :
    (w ++ List.replicate k 0).getD i 0 = w.getD i 0 := by
  rcases Nat.lt_or_ge i w.length with h | h
  · rw [List.getD_append _ _ _ _ h]
  · rw [List.getD_eq_default _ _ h, List.getD_append_right _ _ _ _ h]
    rcases Nat.lt_or_ge (i - w.length) k with h2 | h2
    · simp [List.getD, List.getElem?_replicate, h2]
    · rw [List.getD_eq_default]
      simpa using h2

/-- The claim maps the MacRoman ellipsis to a period; the source maps
MacRoman `0xC9` (the ellipsis) to the `'_'` fallback (it is `0xE1`, the
middle dot, that becomes `'.'`). -/
theorem macroman_ellipsis_counterexample :
    macosroman2ascii [201] 1 1 = some [95] ∧ (95 : Nat) ≠ 46 := by
  constructor
  · rfl
  · decide

/-- C6 (amended): `macosroman2ascii` fails exactly when a length is `≤ 0`
(never because of buffer content); on success the output buffer has
exactly the requested length, holds the per-byte transliteration of the
input up to the first zero byte or either length bound and zero fill
afterwards; bytes `0x20`–`0x7E` pass through unchanged, bytes below
`0x20` become `'_'`, bytes above `0x7E` go through the fixed table
(accented letters to their base letter, smart quotes to `'`/`"`, dashes
to `'-'`, middle dot to `'.'`, and `'_'` as fallback — in particular the
ellipsis `0xC9` gets the `'_'` fallback, not `'.'`). -/
theorem macroman_translit_amended :
    (∀ (src : List Nat) (srcLen dstLen : Int),
        macosroman2ascii src srcLen dstLen = none ↔ srcLen ≤ 0 ∨ dstLen ≤ 0)
    ∧ (∀ (src : List Nat) (srcLen dstLen : Int),
        0 < srcLen → 0 < dstLen →
        ∃ out, macosroman2ascii src srcLen dstLen = some out ∧
          out.length = dstLen.toNat ∧
          ∀ i, out.getD i 0 =
            if i < srcLen.toNat ∧ i < dstLen.toNat ∧
                (∀ j, j ≤ i → src.getD j 0 % 256 ≠ 0)
            then mac2asciiChar (src.getD i 0 % 256) else 0)
    ∧ (∀ c, c < 127 → 32 ≤ c → mac2asciiChar c = c)
    ∧ (∀ c, c < 32 → mac2asciiChar c = 95)
    ∧ mac2asciiChar 128 = 65 ∧ mac2asciiChar 142 = 101
    ∧ mac2asciiChar 210 = 34 ∧ mac2asciiChar 212 = 39
    ∧ mac2asciiChar 208 = 45 ∧ mac2asciiChar 209 = 45
    ∧ mac2asciiChar 225 = 46 ∧ mac2asciiChar 201 = 95
    ∧ mac2asciiChar 165 = 95 := by
  refine ⟨?_, ?_, by decide, by decide, by decide, by decide, by decide,
    by decide, by decide, by decide, by decide, by decide, by decide⟩
  · intro src srcLen dstLen
    unfold macosroman2ascii
    by_cases h : srcLen ≤ 0 ∨ dstLen ≤ 0
    · simp [h]
    · simp [h]
  · intro src srcLen dstLen h1 h2
    have hno : ¬ (srcLen ≤ 0 ∨ dstLen ≤ 0) := by omega
    have hmin : (min srcLen dstLen).toNat = min srcLen.toNat dstLen.toNat := by
      rcases le_total srcLen dstLen with h | h
      · rw [min_eq_left h, Nat.min_eq_left (by omega)]
      · rw [min_eq_right h, Nat.min_eq_right (by omega)]
    refine ⟨_, by rw [macosroman2ascii, if_neg hno], ?_, ?_⟩
    · have := m2aScan_length_le src (min srcLen dstLen).toNat
      rw [List.length_append, List.length_replicate]
      omega
    · intro i
      rw [append_replicate_getD, m2aScan_getD, hmin]
      congr 1
      simp only [eq_iff_iff]
      rw [Nat.lt_min, and_assoc]

theorem macroman_translit_amended_witness :
    ∃ out, macosroman2ascii [201, 65] 2 2 = some out ∧
      out.length = (2 : Int).toNat := by
  obtain ⟨out, h1, h2, -⟩ :=
    macroman_translit_amended.2.1 [201, 65] 2 2 (by norm_num) (by norm_num)
  exact ⟨out, h1, h2⟩

/-- C9: the transliteration is idempotent on its output — running
`macosroman2ascii` on its own output buffer reproduces that buffer
exactly, because every byte the function writes lies in the printable
ASCII range that the function maps to itself (and the zero fill is
reproduced by the zero-byte early exit plus `memset`). -/
theorem macroman_translit_idempotent :
    ∀ x : List Nat, x ≠ [] →
      ∃ y, macosroman2ascii x (x.length : Int) (x.length : Int) = some y ∧
        macosroman2ascii y (y.length : Int) (y.length : Int) = some y := by
  intro x hx
  have hlen : 0 < x.length := List.length_pos.mpr hx
  have hno : ¬ ((x.length : Int) ≤ 0 ∨ (x.length : Int) ≤ 0) := by
    push_neg
    constructor <;> exact_mod_cast hlen
  have htn : ((x.length : Int)).toNat = x.length := Int.toNat_natCast _
  have hmin : (min (x.length : Int) (x.length : Int)).toNat = x.length := by
    rw [min_self, htn]
  set w := m2aScan x x.length with hw
  have hwlen : w.length ≤ x.length := m2aScan_length_le x x.length
  set y := w ++ List.replicate (x.length - w.length) 0 with hy
  have hylen : y.length = x.length := by
    rw [hy, List.length_append, List.length_replicate]
    omega
  refine ⟨y, ?_, ?_⟩
  · rw [macosroman2ascii, if_neg hno]
    simp only [hmin, htn, ← hw, ← hy]
  · have hno2 : ¬ ((y.length : Int) ≤ 0 ∨ (y.length : Int) ≤ 0) := by
      push_neg
      rw [hylen]
      constructor <;> exact_mod_cast hlen
    rw [macosroman2ascii, if_neg hno2]
    have htn2 : ((y.length : Int)).toNat = x.length := by
      rw [Int.toNat_natCast, hylen]
    have hmin2 : (min (y.length : Int) (y.length : Int)).toNat = x.length := by
      rw [min_self, htn2]
    simp only [hmin2, htn2]
    have hscan : m2aScan y x.length = w := by
      rw [hy, hw]
      exact m2aScan_scan x x.length (x.length - (m2aScan x x.length).length)
    rw [hscan, hy]

theorem macroman_translit_idempotent_witness :
    ∃ y, macosroman2ascii [65] ((1 : Nat) : Int) ((1 : Nat) : Int) = some y ∧
      macosroman2ascii y (y.length : Int) (y.length : Int) = some y := by
  have h := macroman_translit_idempotent [65] (by simp)
  simpa using h

/-! ## StuffIt directory decoder (sit.c)

The open file is modelled as the list of the file's bytes together with
the current stream position and the stdio end-of-file indicator.
`fread(buf, 1, n, fp)` reads `min n (length - pos)` bytes and raises the
end-of-file indicator when that falls short of `n`;
`fseek(fp, off, SEEK_CUR)` adds `off` to the position (possibly past the
end of the file, as for a regular file) and clears the indicator. -/

/-- `gSitErr` of sit.h. -/
def gSitErr : Int := -1

/-- `gSitOkay` of sit.h. -/
def gSitOkay : Int := 0

/-- `gSitEOF` of sit.h. -/
def gSitEOF : Int := 1

/-- `SitCompEncrypted` of sit.h. -/
def SitCompEncrypted : Nat := 16

/-- `SitCompFolderStart` of sit.h. -/
def SitCompFolderStart : Nat := 32

/-- `SitCompFolderEnd` of sit.h. -/
def SitCompFolderEnd : Nat := 33

/-- `getUShort`: 2 bytes, big endian, each masked with `gMaskByte`. -/
def getUShort (buf : List Nat) : Nat :=
  (List.range 2).foldl (fun value i => (value <<< 8) ||| (buf.getD i 0 &&& 255)) 0

/-- `getULong`: 4 bytes, big endian, each masked with `gMaskByte`. -/
def getULong (buf : List Nat) : Nat :=
  (List.range 4).foldl (fun value i => (value <<< 8) ||| (buf.getD i 0 &&& 255)) 0

/-- The archive-level fields of `sitFileHandle_t` (the file descriptor and
stream live in the accompanying `SitState`). -/
structure SitFileHandle where
  numEntries : Nat
  archiveLen : Nat
  version : Nat
deriving DecidableEq, Repr

/-- An open SIT stream: file bytes, current position, stdio EOF flag. -/
structure SitState where
  data : List Nat
  pos : Nat
  eofFlag : Bool
deriving DecidableEq, Repr

/-- `sitEntryHeader_t`: the decoded fields of one 112-byte entry header.
`name`, `asciiName`, `type` and `creator` hold the bytes of the C strings
left in the corresponding fixed buffers (up to the first NUL). -/
structure SitEntryHeader where
  rsrcCompType : Nat
  dataCompType : Nat
  name : List Nat
  asciiName : List Nat
  type : List Nat
  creator : List Nat
  finderFlags : Nat
  creationDate : Nat
  modDate : Nat
  rsrcLen : Nat
  dataLen : Nat
  rsrcCompLen : Nat
  dataCompLen : Nat
  rsrcCRC : Nat
  dataCRC : Nat
  hdrCRC : Nat
deriving DecidableEq, Repr

/-- `gSitMagicNumber1s` (the terminating NULL dropped). -/
def gSitMagicNumber1s : List (List Nat) :=
  [[83, 73, 84, 33],   -- SIT!
   [83, 84, 52, 54],   -- ST46
   [83, 84, 53, 48],   -- ST50
   [83, 84, 54, 48],   -- ST60
   [83, 84, 54, 53],   -- ST65
   [83, 84, 105, 110], -- STin
   [83, 84, 105, 50],  -- STi2
   [83, 84, 105, 51],  -- STi3
   [83, 84, 105, 52]]  -- STi4

/-- `gSitMagicNumber2` = "rLau". -/
def gSitMagicNumber2 : List Nat := [114, 76, 97, 117]

/-- `sitInitFileHandle`: read exactly the 22 header bytes (`SITHDRLEN`),
check the two magic numbers (`strncmp` over 4 bytes each), then decode
the entry count, archive length and version byte.  `none` is the
`gSitErr` outcome, in which case no handle is produced. -/
def sitInitFileHandle (data : List Nat) : Option (SitFileHandle × SitState) :=
  if data.length < 22 then none
  else
    let hdr := data.take 22
    if gSitMagicNumber1s.any (fun m => hdr.take 4 = m) then
      if (hdr.drop 10).take 4 = gSitMagicNumber2 then
        some ({ numEntries := getUShort (hdr.drop 4),
                archiveLen := getULong (hdr.drop 6),
                version := hdr.getD 14 0 % 256 },
              { data := data, pos := 22, eofFlag := false })
      else none
    else none

/-- Field extraction of `sitGetNextEntry` from the 112-byte header
buffer: compression types at offsets 0/1, clamped name length at 2,
name at 3 (`strncpy`, so up to the first NUL), type/creator at 66/70,
big-endian numeric fields at the fixed offsets, and the transliterated
name produced by `macosroman2ascii`. -/
def sitParseEntry (buf : List Nat) : SitEntryHeader :=
  let fNameLen : Nat := 65       -- sizeof(entry->name) = SITFNAMEMAX + 1
  let fNameLenAcutal0 := buf.getD 2 0 &&& 255
  let fNameLenAcutal := if fNameLen ≤ fNameLenAcutal0 then fNameLen - 1 else fNameLenAcutal0
  let name := ((buf.drop 3).take fNameLenAcutal).takeWhile (fun c => c ≠ 0)
  { rsrcCompType := buf.getD 0 0 % 256
    dataCompType := buf.getD 1 0 % 256
    name := name
    asciiName :=
      (macosroman2ascii name (fNameLenAcutal : Int) (fNameLenAcutal : Int)).getD []
    type := ((buf.drop 66).take 4).takeWhile (fun c => c ≠ 0)
    creator := ((buf.drop 70).take 4).takeWhile (fun c => c ≠ 0)
    finderFlags := getUShort (buf.drop 74)
    creationDate := getULong (buf.drop 76)
    modDate := getULong (buf.drop 80)
    rsrcLen := getULong (buf.drop 84)
    dataLen := getULong (buf.drop 88)
    rsrcCompLen := getULong (buf.drop 92)
    dataCompLen := getULong (buf.drop 96)
    rsrcCRC := getUShort (buf.drop 100)
    dataCRC := getUShort (buf.drop 102)
    hdrCRC := getUShort (buf.drop 110) }

/-- `sitGetNextEntry`: return `gSitEOF` if the EOF indicator is already
set; read exactly 112 bytes (`SITENTRYHDRLEN`) — a short read at end of
file raises the indicator and yields `gSitEOF` (the `gSitErr` branch for
a short read without EOF corresponds to an I/O error, which a pure byte
list cannot produce); decode the entry; unless the resource compression
type is the folder-start/folder-end sentinel, `fseek` forward over
`rsrcCompLen + dataCompLen` bytes of fork data. -/
def sitGetNextEntry (s : SitState) : Int × Option SitEntryHeader × SitState :=
  if s.eofFlag then (gSitEOF, none, s)
  else if s.data.length < s.pos + 112 then
    (gSitEOF, none, { s with pos := s.pos + (s.data.length - s.pos), eofFlag := true })
  else
    let e := sitParseEntry ((s.data.drop s.pos).take 112)
    if e.rsrcCompType ≠ SitCompFolderStart ∧ e.rsrcCompType ≠ SitCompFolderEnd then
      (gSitOkay, some e,
        { s with pos := s.pos + 112 + (e.rsrcCompLen + e.dataCompLen), eofFlag := false })
    else
      (gSitOkay, some e, { s with pos := s.pos + 112 })

/-- `sitIsEntryFolder` (sit.c). -/
def sitIsEntryFolder (e : SitEntryHeader) : Nat :=
  if e.rsrcCompType = SitCompFolderStart then 1
  else if e.rsrcCompType = SitCompFolderEnd then 2
  else 0

/-- `sitIsEntryEncrypted` (sit.c). -/
def sitIsEntryEncrypted (e : SitEntryHeader) : Nat :=
  if e.rsrcCompType = SitCompEncrypted then 1 else 0

lemma and255_eq_mod (b : Nat) : b &&& 255 = b % 256 := by
  have h : (255 : Nat) = 2 ^ 8 - 1 := by norm_num
  rw [h, Nat.and_pow_two_sub_one_eq_mod]

lemma shiftLeft8_or (a b : Nat) (hb : b < 256) : (a <<< 8) ||| b = 256 * a + b := by
  have h8 : (2 : Nat) ^ 8 = 256 := by norm_num
  have hb2 : b < 2 ^ 8 := h8 ▸ hb
  have h := Nat.mul_add_lt_is_or hb2 a
  rw [Nat.shiftLeft_eq, Nat.mul_comm]
  rw [h8] at h
  exact h.symm

lemma getUShort_eq (l : List Nat) :
    getUShort l = 256 * (l.getD 0 0 % 256) + l.getD 1 0 % 256 := by
  show ((0 <<< 8) ||| (l.getD 0 0 &&& 255)) <<< 8 ||| (l.getD 1 0 &&& 255) = _
  rw [Nat.zero_shiftLeft, Nat.zero_or, and255_eq_mod, and255_eq_mod,
    shiftLeft8_or _ _ (Nat.mod_lt _ (by norm_num))]

lemma getULong_eq (l : List Nat) :
    getULong l =
      256 * (256 * (256 * (l.getD 0 0 % 256) + l.getD 1 0 % 256)
        + l.getD 2 0 % 256) + l.getD 3 0 % 256 := by
  show ((((0 <<< 8) ||| (l.getD 0 0 &&& 255)) <<< 8 ||| (l.getD 1 0 &&& 255)) <<< 8
      ||| (l.getD 2 0 &&& 255)) <<< 8 ||| (l.getD 3 0 &&& 255) = _
  rw [Nat.zero_shiftLeft, Nat.zero_or, and255_eq_mod, and255_eq_mod, and255_eq_mod,
    and255_eq_mod, shiftLeft8_or _ _ (Nat.mod_lt _ (by norm_num)),
    shiftLeft8_or _ _ (Nat.mod_lt _ (by norm_num)),
    shiftLeft8_or _ _ (Nat.mod_lt _ (by norm_num))]

lemma list_getD_drop (l : List Nat) (n i : Nat) :
    (l.drop n).getD i 0 = l.getD (n + i) 0 := by
  simp [List.getD, List.get?_eq_getElem?, List.getElem?_drop]

lemma list_getD_take (l : List Nat) (n i : Nat) (h : i < n) :
    (l.take n).getD i 0 = l.getD i 0 := by
  simp [List.getD, List.get?_eq_getElem?, List.getElem?_take_of_lt h]

lemma list_getD_lt_of_mem (l : List Nat) (i : Nat) (hb : ∀ b ∈ l, b < 256)
    (hi : i < l.length) : l.getD i 0 < 256 := by
  rw [List.getD_eq_getElem l 0 hi]
  exact hb _ (List.getElem_mem hi)

/-- C1: whenever `sitGetNextEntry` returns `gSitOkay`, the stream
position advances past the 112 header bytes by exactly
`rsrcCompLen + dataCompLen` further bytes when the resource compression
type is neither the folder-start (32) nor the folder-end (33) sentinel,
and stays right after the 112-byte header for the two folder
sentinels. -/
theorem sit_nonfolder_advances_stream :
    ∀ (s : SitState) (e : SitEntryHeader) (s2 : SitState),
      sitGetNextEntry s = (gSitOkay, some e, s2) →
      (e.rsrcCompType ≠ 32 ∧ e.rsrcCompType ≠ 33 →
          s2.pos = s.pos + 112 + (e.rsrcCompLen + e.dataCompLen)) ∧
      (e.rsrcCompType = 32 ∨ e.rsrcCompType = 33 → s2.pos = s.pos + 112) := by
  intro s e s2 h
  simp only [sitGetNextEntry] at h
  split at h
  · simp [Prod.mk.injEq] at h
  · split at h
    · simp [Prod.mk.injEq] at h
    · split at h
      case isTrue hcond =>
        simp only [Prod.mk.injEq, Option.some.injEq] at h
        obtain ⟨-, he, hs⟩ := h
        subst he
        subst hs
        simp only [SitCompFolderStart, SitCompFolderEnd] at hcond
        exact ⟨fun _ => rfl, fun hor => absurd hor (by tauto)⟩
      case isFalse hcond =>
        simp only [Prod.mk.injEq, Option.some.injEq] at h
        obtain ⟨-, he, hs⟩ := h
        subst he
        subst hs
        simp only [SitCompFolderStart, SitCompFolderEnd] at hcond
        exact ⟨fun hne => absurd hne (by tauto), fun _ => rfl⟩

/-- One 112-byte file entry header: compression types 0/0, name "A",
`rsrcCompLen = 0` (offset 92), `dataCompLen = 50` (offset 96). -/
def sitScenarioEntry : List Nat :=
  [0, 0, 1, 65] ++ List.replicate 92 0 ++ [0, 0, 0, 50] ++ List.replicate 12 0

/-- A SIT archive: 22-byte header declaring `numEntries = 2` and
`archiveLen = 346`, then two file entries, each followed by its 50
bytes of compressed data. -/
def sitScenarioArchive : List Nat :=
  ([83, 73, 84, 33] ++ [0, 2] ++ [0, 0, 1, 90] ++ [114, 76, 97, 117] ++ [1]
    ++ List.replicate 7 0)
  ++ sitScenarioEntry ++ List.replicate 50 7
  ++ sitScenarioEntry ++ List.replicate 50 9

/-- The stream state right after `sitInitFileHandle` read the 22-byte
archive header. -/
def sitScenarioState0 : SitState :=
  { data := sitScenarioArchive, pos := 22, eofFlag := false }

set_option maxRecDepth 100000 in
theorem sit_nonfolder_advances_stream_witness :
    ((sitGetNextEntry sitScenarioState0).2.2).pos =
      sitScenarioState0.pos + 112 + (0 + 50) := by
  have h := sit_nonfolder_advances_stream sitScenarioState0
    (sitParseEntry ((sitScenarioState0.data.drop sitScenarioState0.pos).take 112))
    ((sitGetNextEntry sitScenarioState0).2.2) (by decide)
  exact h.1 (by decide)

/-- C4: `sitInitFileHandle` needs exactly 22 header bytes and succeeds
if and only if bytes 0–3 match one of the nine format tags and bytes
10–13 are `rLau`; on success it reports the 2-byte big-endian entry
count at offset 4, the 4-byte big-endian archive length at offset 6 and
the version byte at offset 14, leaving the stream at position 22. -/
theorem sit_init_magic_iff :
    ∀ data : List Nat, (∀ b ∈ data, b < 256) →
      (data.length < 22 → sitInitFileHandle data = none) ∧
      (22 ≤ data.length →
        ((sitInitFileHandle data).isSome = true ↔
          ((data.take 4 = [83, 73, 84, 33] ∨ data.take 4 = [83, 84, 52, 54] ∨
            data.take 4 = [83, 84, 53, 48] ∨ data.take 4 = [83, 84, 54, 48] ∨
            data.take 4 = [83, 84, 54, 53] ∨ data.take 4 = [83, 84, 105, 110] ∨
            data.take 4 = [83, 84, 105, 50] ∨ data.take 4 = [83, 84, 105, 51] ∨
            data.take 4 = [83, 84, 105, 52]) ∧
           (data.drop 10).take 4 = [114, 76, 97, 117]))) ∧
      (∀ hdl st, sitInitFileHandle data = some (hdl, st) →
        hdl.numEntries = 256 * data.getD 4 0 + data.getD 5 0 ∧
        hdl.archiveLen = 256 * (256 * (256 * data.getD 6 0 + data.getD 7 0)
          + data.getD 8 0) + data.getD 9 0 ∧
        hdl.version = data.getD 14 0 ∧
        st = { data := data, pos := 22, eofFlag := false }) := by
  intro data hb
  have hm1 : (4 : Nat) ⊓ 22 = 4 := by norm_num
  have hm2 : (4 : Nat) ⊓ (22 - 10) = 4 := by norm_num
  have ht4 : (data.take 22).take 4 = data.take 4 := by
    rw [List.take_take, hm1]
  have hd4 : ((data.take 22).drop 10).take 4 = (data.drop 10).take 4 := by
    rw [List.drop_take, List.take_take, hm2]
  refine ⟨?_, ?_, ?_⟩
  · intro h
    unfold sitInitFileHandle
    rw [if_pos h]
  · intro h22
    simp only [sitInitFileHandle]
    rw [if_neg (by omega)]
    split_ifs with h1 h2
    · simp only [Option.isSome_some, true_iff]
      constructor
      · rw [ht4] at h1
        simp only [gSitMagicNumber1s, List.any_cons, List.any_nil,
          Bool.or_eq_true, decide_eq_true_eq] at h1
        tauto
      · rw [hd4] at h2
        exact h2
    · simp only [Option.isSome_none, Bool.false_eq_true, false_iff]
      rintro ⟨-, hmm2⟩
      rw [hd4] at h2
      exact h2 hmm2
    · simp only [Option.isSome_none, Bool.false_eq_true, false_iff]
      rintro ⟨hmm1, -⟩
      apply h1
      rw [ht4]
      simp only [gSitMagicNumber1s, List.any_cons, List.any_nil,
        Bool.or_eq_true, decide_eq_true_eq]
      tauto
  · intro hdl st hsome
    simp only [sitInitFileHandle] at hsome
    split_ifs at hsome with h0 h1 h2
    rw [Option.some.injEq, Prod.mk.injEq] at hsome
    obtain ⟨hh, hs⟩ := hsome
    subst hh
    subst hs
    have hby : ∀ i, i < 22 → data.getD i 0 < 256 := by
      intro i hi
      exact list_getD_lt_of_mem data i hb (by omega)
    have hgd : ∀ i j, i + j < 22 →
        ((data.take 22).drop i).getD j 0 = data.getD (i + j) 0 := by
      intro i j hij
      rw [list_getD_drop, list_getD_take _ _ _ hij]
    refine ⟨?_, ?_, ?_, rfl⟩
    · show getUShort ((data.take 22).drop 4) = _
      rw [getUShort_eq, hgd 4 0 (by omega), hgd 4 1 (by omega),
        Nat.mod_eq_of_lt (hby 4 (by omega)), Nat.mod_eq_of_lt (hby 5 (by omega))]
    · show getULong ((data.take 22).drop 6) = _
      rw [getULong_eq, hgd 6 0 (by omega), hgd 6 1 (by omega),
        hgd 6 2 (by omega), hgd 6 3 (by omega),
        Nat.mod_eq_of_lt (hby 6 (by omega)), Nat.mod_eq_of_lt (hby 7 (by omega)),
        Nat.mod_eq_of_lt (hby 8 (by omega)), Nat.mod_eq_of_lt (hby 9 (by omega))]
    · show (data.take 22).getD 14 0 % 256 = _
      rw [list_getD_take _ _ _ (by omega), Nat.mod_eq_of_lt (hby 14 (by omega))]

set_option maxRecDepth 100000 in
theorem sit_init_magic_iff_witness :
    (sitInitFileHandle sitScenarioArchive).isSome = true := by
  have h := sit_init_magic_iff sitScenarioArchive (by decide)
  exact (h.2.1 (by decide)).mpr ⟨by decide, by decide⟩

set_option maxRecDepth 200000 in
/-- C5: `sitGetNextEntry` signals end-of-iteration with `gSitEOF`, a code
distinct from `gSitErr` and `gSitOkay`, whenever the stream is at end of
file with zero bytes available (the `gSitErr` short-read branch needs an
I/O error, which a byte list cannot produce); and on the two-entry
scenario archive (`numEntries = 2`, each entry `dataCompLen = 50`,
`rsrcCompLen = 0`) the first two calls return `gSitOkay` and the third
returns `gSitEOF`. -/
theorem sit_result_codes_and_scenario :
    (∀ s : SitState, s.eofFlag = true ∨ s.data.length ≤ s.pos →
        (sitGetNextEntry s).1 = gSitEOF)
    ∧ gSitEOF ≠ gSitErr ∧ gSitEOF ≠ gSitOkay
    ∧ (sitInitFileHandle sitScenarioArchive) =
        some ({ numEntries := 2, archiveLen := 346, version := 1 }, sitScenarioState0)
    ∧ (sitGetNextEntry sitScenarioState0).1 = gSitOkay
    ∧ (sitGetNextEntry (sitGetNextEntry sitScenarioState0).2.2).1 = gSitOkay
    ∧ (sitGetNextEntry
        (sitGetNextEntry (sitGetNextEntry sitScenarioState0).2.2).2.2).1 = gSitEOF := by
  refine ⟨?_, by decide, by decide, by decide, by decide, by decide, by decide⟩
  intro s hs
  unfold sitGetNextEntry
  rcases hs with hs | hs
  · rw [if_pos hs]
  · by_cases he : s.eofFlag = true
    · rw [if_pos he]
    · rw [if_neg he, if_pos (by omega)]

theorem sit_result_codes_and_scenario_witness :
    (sitGetNextEntry { data := [], pos := 0, eofFlag := false }).1 = gSitEOF :=
  sit_result_codes_and_scenario.1 { data := [], pos := 0, eofFlag := false }
    (Or.inr (by decide))

/-! ## BinHex 4.0 decoder (GeneratePreviewForURL.m)

The layers above the 6-bit unpacker are modelled on an `HqxState` whose
`input` field is the sequence of bytes that `hqxGetByteRaw` (the 6-bit
unpacker with its 3-byte ring buffer) still has to deliver; `repeat`,
`repeatChar` and `eof` are the run-length fields of `hqxFileHandle_t`,
and `crc` is the running CRC-16 register (kept as its unsigned 16-bit
pattern — the C `short` holds the same 16 bits). -/

/-- `RUNCHAR` (0x90). -/
def RUNCHAR : Nat := 0x90

/-- `CRCCONSTANT` (0x1021). -/
def CRCCONSTANT : Nat := 0x1021

/-- `OPT_EXCLUDE_FROM_CRC`. -/
def OPT_EXCLUDE_FROM_CRC : Nat := 1

/-- `gHqxErr` of binhex.h. -/
def gHqxErr : Int := -1

/-- `gHqxOkay` of binhex.h. -/
def gHqxOkay : Int := 0

/-- `HQXFNAMEMAX` (64). -/
def HQXFNAMEMAX : Nat := 64

/-- The value a C `short` holds after being assigned the 16-bit pattern
`v` (sign extension of bit 15). -/
def toShort (v : Nat) : Int :=
  if v % 65536 < 32768 then ((v % 65536 : Nat) : Int)
  else ((v % 65536 : Nat) : Int) - 65536

/-- The run-length/CRC state of `hqxFileHandle_t`; `input` abstracts the
6-bit unpacking layer as the byte sequence it still has to deliver. -/
structure HqxState where
  input : List Nat
  repeatCnt : Int      -- the source field is spelled repeat, a reserved word here
  repeatChar : Nat
  eof : Nat
  crc : Nat
deriving DecidableEq, Repr

/-- The decoded `hqxHeader_t`. -/
structure HqxHeader where
  name : List Nat
  asciiName : List Nat
  type : List Nat
  creator : List Nat
  flags : Int
  dataLen : Int
  rsrcLen : Int
  headerCRC : Int
deriving DecidableEq, Repr

/-- `hqxGetByteRaw`: the next unpacked byte (`c & BYTEMASK`), or `EOF`
when the unpacker is exhausted. -/
def hqxGetByteRaw (s : HqxState) : Option Nat × HqxState :=
  match s.input with
  | [] => (none, s)
  | c :: rest => (some (c % 256), { s with input := rest })

/-- One iteration of the 8-round bit loop of `hqxUpdateCRC` on the pair
`(crc, c)`: remember bit 15, shift the 16-bit register left, shift in
the top bit of `c`, XOR `CRCCONSTANT` if the remembered bit was set,
then shift `c` left under its byte mask. -/
def crcStep (p : Nat × Nat) : Nat × Nat :=
  let temp := p.1 &&& 0x8000
  let crc1 := ((p.1 <<< 1) % 65536) ||| (p.2 >>> 7)
  (if temp ≠ 0 then crc1 ^^^ CRCCONSTANT else crc1, (p.2 <<< 1) % 256)

/-- `hqxUpdateCRC`: run the bit loop eight times over byte `c`. -/
def hqxUpdateCRC (c : Nat) (crc : Nat) : Nat := (crcStep^[8] (crc, c)).1

/-- `hqxVerifyCRC`: mask both sides with `WORDMASK` and compare. -/
def hqxVerifyCRC (calculatedCRC expectedCRC : Int) : Bool :=
  calculatedCRC % 65536 == expectedCRC % 65536

/-- `hqxGetByteWithRL`: serve pending repeats first; otherwise read a
raw byte — a `RUNCHAR` escape reads the repeat count `r`: `r = 0` is a
literal `RUNCHAR`, otherwise the previous byte is returned and `r - 2`
further repeats of it are scheduled. -/
def hqxGetByteWithRL (s : HqxState) : Option Nat × HqxState :=
  if 0 < s.repeatCnt then
    (some s.repeatChar, { s with repeatCnt := s.repeatCnt - 1 })
  else
    match hqxGetByteRaw s with
    | (none, s1) => (none, { s1 with eof := 1 })
    | (some c, s1) =>
      if c ≠ RUNCHAR then (some c, { s1 with repeatChar := c })
      else
        match hqxGetByteRaw s1 with
        | (none, s2) => (none, { s2 with repeatCnt := gHqxErr, eof := 1 })
        | (some r, s2) =>
          if r = 0 then
            (some RUNCHAR, { s2 with repeatCnt := 0, repeatChar := RUNCHAR })
          else
            (some s2.repeatChar, { s2 with repeatCnt := (r : Int) - 2 })

/-- `hqxGetByteWithOptions`: a run-length-decoded byte, feeding the CRC
accumulator with the byte itself, or with zero for
`OPT_EXCLUDE_FROM_CRC` (used for the CRC fields themselves). -/
def hqxGetByteWithOptions (options : Nat) (s : HqxState) : Option Nat × HqxState :=
  match hqxGetByteWithRL s with
  | (none, s1) => (none, s1)
  | (some c, s1) =>
    if options ≠ OPT_EXCLUDE_FROM_CRC then
      (some c, { s1 with crc := hqxUpdateCRC c s1.crc })
    else
      (some c, { s1 with crc := hqxUpdateCRC 0 s1.crc })

/-- `hqxGetByte` = `hqxGetByteWithOptions(…, OPT_NONE)`. -/
def hqxGetByte (s : HqxState) : Option Nat × HqxState := hqxGetByteWithOptions 0 s

/-- The filling loop of `hqxGetBuffer`. -/
def hqxGetBytesLoop : Nat → HqxState → Option (List Nat) × HqxState
  | 0, s => (some [], s)
  | n + 1, s =>
    match hqxGetByte s with
    | (none, s1) => (none, s1)
    | (some c, s1) =>
      match hqxGetBytesLoop n s1 with
      | (none, s2) => (none, s2)
      | (some l, s2) => (some (c :: l), s2)

/-- `hqxGetBuffer`: read exactly `len` bytes (`len ≤ 0` is an error). -/
def hqxGetBuffer (len : Nat) (s : HqxState) : Option (List Nat) × HqxState :=
  if len = 0 then (none, s) else hqxGetBytesLoop len s

/-- `hqxGet2BytesWithOptions`: two bytes into a big-endian `short`
(wrap-around of the 16-bit pattern), `gHqxErr` on end of input. -/
def hqxGet2BytesWithOptions (options : Nat) (s : HqxState) : Int × HqxState :=
  match hqxGetByteWithOptions options s with
  | (none, s1) => (gHqxErr, s1)
  | (some c1, s1) =>
    match hqxGetByteWithOptions options s1 with
    | (none, s2) => (gHqxErr, s2)
    | (some c2, s2) => (toShort (((c1 &&& 255) <<< 8) ||| (c2 &&& 255)), s2)

/-- `hqxGet2Bytes` = `hqxGet2BytesWithOptions(…, OPT_NONE)`. -/
def hqxGet2Bytes (s : HqxState) : Int × HqxState := hqxGet2BytesWithOptions 0 s

/-- `hqxGet4Bytes`: four bytes shifted into a C `long` (64-bit on the
target platform, so the value is the plain big-endian number),
`gHqxErr` if end of input interrupts the loop. -/
def hqxGet4Bytes (s : HqxState) : Int × HqxState :=
  match hqxGetByte s with
  | (none, s1) => (gHqxErr, s1)
  | (some c1, s1) =>
  match hqxGetByte s1 with
  | (none, s2) => (gHqxErr, s2)
  | (some c2, s2) =>
  match hqxGetByte s2 with
  | (none, s3) => (gHqxErr, s3)
  | (some c3, s3) =>
  match hqxGetByte s3 with
  | (none, s4) => (gHqxErr, s4)
  | (some c4, s4) =>
    (((((((c1 &&& 255) <<< 8) ||| (c2 &&& 255)) <<< 8 ||| (c3 &&& 255)) <<< 8
        ||| (c4 &&& 255) : Nat) : Int), s4)

/-- `hqxGetHeader` after `hqxFindHeader` has positioned the stream:
name length (plus the implicit trailing NUL), bounds check against
`HQXFNAMEMAX`, name (transliterated into `asciiName` from the 64-byte
name buffer), type, creator, flags, the two fork lengths with their
`< 0` checks, then the header CRC read with `OPT_EXCLUDE_FROM_CRC` and
verified against the accumulator.  `none` is the `gHqxErr` outcome: no
header is produced. -/
def hqxGetHeader (s0 : HqxState) : Option HqxHeader × HqxState :=
  match hqxGetByte s0 with
  | (none, s) => (none, s)
  | (some nameLen0, s) =>
    let nameLen := nameLen0 + 1
    if HQXFNAMEMAX ≤ nameLen then (none, s)
    else
      match hqxGetBuffer nameLen s with
      | (none, s) => (none, s)
      | (some name, s) =>
        match hqxGetBuffer 4 s with
        | (none, s) => (none, s)
        | (some ty, s) =>
        match hqxGetBuffer 4 s with
        | (none, s) => (none, s)
        | (some creator, s) =>
        match hqxGet2Bytes s with
        | (flags, s) =>
        if flags = gHqxErr then (none, s)
        else
        match hqxGet4Bytes s with
        | (dataLen, s) =>
        if dataLen < 0 then (none, s)
        else
        match hqxGet4Bytes s with
        | (rsrcLen, s) =>
        if rsrcLen < 0 then (none, s)
        else
        match hqxGet2BytesWithOptions OPT_EXCLUDE_FROM_CRC s with
        | (headerCRC, s) =>
        if headerCRC = gHqxErr then (none, s)
        else if hqxVerifyCRC ((s.crc : Int)) headerCRC then
          (some { name := name,
                  asciiName :=
                    (macosroman2ascii
                      (name ++ List.replicate (HQXFNAMEMAX - name.length) 0)
                      (HQXFNAMEMAX : Int) (HQXFNAMEMAX : Int)).getD [],
                  type := ty, creator := creator, flags := flags,
                  dataLen := dataLen, rsrcLen := rsrcLen,
                  headerCRC := headerCRC }, s)
        else (none, s)

/-- A caller pulling `n` single bytes through `hqxGetByteWithRL`,
stopping at end of input: the flat decompressed stream it observes. -/
def hqxReadRL : Nat → HqxState → List Nat × HqxState
  | 0, s => ([], s)
  | n + 1, s =>
    match hqxGetByteWithRL s with
    | (none, s1) => ([], s1)
    | (some c, s1) =>
      let p := hqxReadRL n s1
      (c :: p.1, p.2)

lemma hqxReadRL_repeat (k : Nat) :
    ∀ s : HqxState, s.repeatCnt = (k : Int) →
      hqxReadRL k s = (List.replicate k s.repeatChar, { s with repeatCnt := 0 }) := by
  induction k with
  | zero =>
    intro s h
    cases s
    simp_all [hqxReadRL]
  | succ k ih =>
    intro s h
    have hpos : 0 < s.repeatCnt := by
      rw [h]
      exact_mod_cast Nat.succ_pos k
    have hstep : hqxGetByteWithRL s =
        (some s.repeatChar, { s with repeatCnt := s.repeatCnt - 1 }) := by
      unfold hqxGetByteWithRL
      rw [if_pos hpos]
    have hnext : ({ s with repeatCnt := s.repeatCnt - 1 } : HqxState).repeatCnt
        = (k : Int) := by
      show s.repeatCnt - 1 = (k : Int)
      rw [h]
      push_cast
      ring
    show hqxReadRL (k + 1) s = _
    unfold hqxReadRL
    rw [hstep]
    simp only [ih _ hnext, List.replicate_succ]

/-- C2: in the run-length layer, `0x90` escapes the following repeat
count `r`: a count of zero emits the single literal `0x90`; a count
`r ≥ 2` after a literal byte `c` makes `c` appear exactly `r` times in
total in the flat stream that callers of `hqxGetByteWithRL` observe
(the original plus `r - 1` repeats), and the escape/count pair itself
contributes nothing else — the stream then continues after the pair. -/
theorem hqx_runlength_flat_stream :
    ∀ (s : HqxState) (c r : Nat) (rest : List Nat),
      s.repeatCnt = 0 → s.input = c :: RUNCHAR :: r :: rest →
      c < 256 → c ≠ RUNCHAR → r ≤ 255 →
      (r = 0 → hqxReadRL 2 s =
        ([c, RUNCHAR], { s with input := rest, repeatChar := RUNCHAR })) ∧
      (2 ≤ r → hqxReadRL r s =
        (List.replicate r c, { s with input := rest, repeatChar := c })) := by
  intro s c r rest h0 hinp hc hcr hr
  obtain ⟨inp, rcnt, rch, eo, cr⟩ := s
  simp only at h0 hinp
  subst h0
  subst hinp
  have hcm : c % 256 = c := Nat.mod_eq_of_lt (by omega)
  have hrm : r % 256 = r := Nat.mod_eq_of_lt (by omega)
  have h144 : RUNCHAR % 256 = RUNCHAR := by decide
  have hstep1 : hqxGetByteWithRL ⟨c :: RUNCHAR :: r :: rest, 0, rch, eo, cr⟩ =
      (some c, ⟨RUNCHAR :: r :: rest, 0, c, eo, cr⟩) := by
    show (if (0 : Int) < 0 then _ else _) = _
    rw [if_neg (by omega)]
    show (if c % 256 ≠ RUNCHAR then _
          else _) = _
    rw [hcm, if_pos hcr]
  constructor
  · rintro rfl
    have hstep2 : hqxGetByteWithRL ⟨RUNCHAR :: 0 :: rest, 0, c, eo, cr⟩ =
        (some RUNCHAR, ⟨rest, 0, RUNCHAR, eo, cr⟩) := by
      show (if (0 : Int) < 0 then _ else _) = _
      rw [if_neg (by omega)]
      show (if RUNCHAR % 256 ≠ RUNCHAR then _ else _) = _
      rw [h144, if_neg (by simp)]
      show (if (0 : Nat) % 256 = 0 then _ else _) = _
      rw [if_pos (by decide)]
    show hqxReadRL 2 _ = _
    unfold hqxReadRL
    rw [hstep1]
    dsimp only
    unfold hqxReadRL
    rw [hstep2]
    dsimp only
    simp [hqxReadRL]
  · intro h2
    obtain ⟨r9, rfl⟩ : ∃ r9, r = r9 + 2 := ⟨r - 2, by omega⟩
    have hstep2 : hqxGetByteWithRL ⟨RUNCHAR :: (r9 + 2) :: rest, 0, c, eo, cr⟩ =
        (some c, ⟨rest, ((r9 + 2 : Nat) : Int) - 2, c, eo, cr⟩) := by
      show (if (0 : Int) < 0 then _ else _) = _
      rw [if_neg (by omega)]
      show (if RUNCHAR % 256 ≠ RUNCHAR then _ else _) = _
      rw [h144, if_neg (by simp)]
      show (if (r9 + 2) % 256 = 0 then _ else _) = _
      rw [hrm, if_neg (by omega)]
    have htail := hqxReadRL_repeat r9 ⟨rest, ((r9 + 2 : Nat) : Int) - 2, c, eo, cr⟩
      (by push_cast; ring)
    show hqxReadRL (r9 + 1 + 1) _ = _
    unfold hqxReadRL
    rw [hstep1]
    dsimp only
    unfold hqxReadRL
    rw [hstep2]
    dsimp only
    rw [htail]
    simp [List.replicate_succ]

theorem hqx_runlength_flat_stream_witness :
    hqxReadRL 3 ⟨[65, 144, 3, 7], 0, 0, 0, 0⟩ =
      (List.replicate 3 65, ⟨[7], 0, 65, 0, 0⟩) := by
  have h := hqx_runlength_flat_stream ⟨[65, 144, 3, 7], 0, 0, 0, 0⟩ 65 3 [7]
    rfl rfl (by decide) (by decide) (by decide)
  exact h.2 (by decide)

/-! ### CRC-16 bit-level lemmas

The goal is the error-detection property behind the header CRC: the
bit-serial update with polynomial `0x1021` is, for each input bit, an
XOR-linear map of the 16-bit register, and multiplication by `x` modulo
the polynomial sends no nonzero register to zero (the polynomial has a
nonzero constant term), so flipping a single input bit always changes
the final register. -/

lemma testBit0_shl1_mod (x : Nat) : ((x <<< 1) % 65536).testBit 0 = false := by
  rw [Nat.shiftLeft_eq]
  have h2 : x * 2 ^ 1 = 2 * x := by ring
  rw [h2]
  simp only [Nat.testBit_to_div_mod, pow_zero, Nat.div_one, decide_eq_false_iff_not]
  omega

lemma shl1_mod65536_xor (x y : Nat) :
    ((x ^^^ y) <<< 1) % 65536 = ((x <<< 1) % 65536) ^^^ ((y <<< 1) % 65536) := by
  have h : (65536 : Nat) = 2 ^ 16 := by norm_num
  rw [h]
  apply Nat.eq_of_testBit_eq
  intro i
  simp only [Nat.testBit_mod_two_pow, Nat.testBit_xor, Nat.testBit_shiftLeft,
    Bool.and_xor_distrib_left]

lemma shl1_mod256_xor (x y : Nat) :
    ((x ^^^ y) <<< 1) % 256 = ((x <<< 1) % 256) ^^^ ((y <<< 1) % 256) := by
  have h : (256 : Nat) = 2 ^ 8 := by norm_num
  rw [h]
  apply Nat.eq_of_testBit_eq
  intro i
  simp only [Nat.testBit_mod_two_pow, Nat.testBit_xor, Nat.testBit_shiftLeft,
    Bool.and_xor_distrib_left]

lemma lor_eq_xor_of_disjoint (x b : Nat) (hx : x.testBit 0 = false) (hb : b < 2) :
    x ||| b = x ^^^ b := by
  apply Nat.eq_of_testBit_eq
  intro i
  cases i with
  | zero =>
    simp only [Nat.testBit_or, Nat.testBit_xor, hx, Bool.false_or, Bool.false_xor]
  | succ i =>
    have hbb : b.testBit (i + 1) = false :=
      Nat.testBit_lt_two_pow (lt_of_lt_of_le hb (by
        calc (2 : Nat) = 2 ^ 1 := by norm_num
        _ ≤ 2 ^ (i + 1) := Nat.pow_le_pow_right (by norm_num) (by omega)))
    simp only [Nat.testBit_or, Nat.testBit_xor, hbb, Bool.or_false, Bool.xor_false]

lemma and32768_cases (x : Nat) : x &&& 32768 = 0 ∨ x &&& 32768 = 32768 := by
  have h : (32768 : Nat) = 2 ^ 15 := by norm_num
  rw [h, Nat.and_two_pow]
  cases hx : x.testBit 15 <;> simp

lemma shiftRight7_lt (c : Nat) (hc : c < 256) : c >>> 7 < 2 := by
  rw [Nat.shiftRight_eq_div_pow]
  omega

lemma shiftRight7_xor (c e : Nat) : (c ^^^ e) >>> 7 = (c >>> 7) ^^^ (e >>> 7) := by
  apply Nat.eq_of_testBit_eq
  intro i
  simp [Nat.testBit_shiftRight, Nat.testBit_xor]

lemma nat_xor_left_comm (x y z : Nat) : x ^^^ (y ^^^ z) = y ^^^ (x ^^^ z) := by
  rw [← Nat.xor_assoc, Nat.xor_comm x y, Nat.xor_assoc]

lemma nat_xor_cancel_left (a b : Nat) : a ^^^ (a ^^^ b) = b := by
  rw [← Nat.xor_assoc, Nat.xor_self, Nat.zero_xor]

/-- One bit-round of `hqxUpdateCRC` is XOR-linear in the
(register, input byte) pair. -/
lemma crcStep_xor (a d c e : Nat) (hc : c < 256) (he : e < 256) :
    crcStep (a ^^^ d, c ^^^ e) =
      ((crcStep (a, c)).1 ^^^ (crcStep (d, e)).1,
       (crcStep (a, c)).2 ^^^ (crcStep (d, e)).2) := by
  have hbc : c >>> 7 < 2 := shiftRight7_lt c hc
  have hbe : e >>> 7 < 2 := shiftRight7_lt e he
  have hA0 : ((a <<< 1) % 65536).testBit 0 = false := testBit0_shl1_mod a
  have hD0 : ((d <<< 1) % 65536).testBit 0 = false := testBit0_shl1_mod d
  have hAD0 : ((((a <<< 1) % 65536) ^^^ ((d <<< 1) % 65536))).testBit 0 = false := by
    simp only [Nat.testBit_xor, hA0, hD0, Bool.xor_false]
  have hxorlt : (c >>> 7) ^^^ (e >>> 7) < 2 := by
    have h2 : (2 : Nat) = 2 ^ 1 := by norm_num
    rw [h2] at hbc hbe ⊢
    exact Nat.xor_lt_two_pow hbc hbe
  have hand : (a ^^^ d) &&& 32768 = (a &&& 32768) ^^^ (d &&& 32768) :=
    Nat.and_xor_distrib_right
  simp only [crcStep, shiftRight7_xor, shl1_mod65536_xor, shl1_mod256_xor,
    lor_eq_xor_of_disjoint _ _ hA0 hbc, lor_eq_xor_of_disjoint _ _ hD0 hbe,
    lor_eq_xor_of_disjoint _ _ hAD0 hxorlt, hand]
  rcases and32768_cases a with ha | ha <;> rcases and32768_cases d with hd | hd <;>
    rw [ha, hd] <;>
    norm_num [Prod.ext_iff, CRCCONSTANT] <;>
    simp [Nat.xor_assoc, Nat.xor_comm, nat_xor_left_comm, nat_xor_cancel_left]

lemma crcStep_snd (p : Nat × Nat) : (crcStep p).2 = (p.2 <<< 1) % 256 := rfl

lemma crcStep_iterate_xor (k : Nat) :
    ∀ p q : Nat × Nat, p.2 < 256 → q.2 < 256 →
      crcStep^[k] (p.1 ^^^ q.1, p.2 ^^^ q.2) =
        ((crcStep^[k] p).1 ^^^ (crcStep^[k] q).1,
         (crcStep^[k] p).2 ^^^ (crcStep^[k] q).2) := by
  induction k with
  | zero => intro p q hp hq; simp
  | succ k ih =>
    intro p q hp hq
    rw [Function.iterate_succ_apply, Function.iterate_succ_apply,
      Function.iterate_succ_apply, crcStep_xor p.1 q.1 p.2 q.2 hp hq]
    have hp2 : (crcStep p).2 < 256 := by
      rw [crcStep_snd]
      exact Nat.mod_lt _ (by norm_num)
    have hq2 : (crcStep q).2 < 256 := by
      rw [crcStep_snd]
      exact Nat.mod_lt _ (by norm_num)
    exact ih (crcStep p) (crcStep q) hp2 hq2

/-- `hqxUpdateCRC` is XOR-linear in the (byte, register) pair. -/
lemma hqxUpdateCRC_xor (c e a d : Nat) (hc : c < 256) (he : e < 256) :
    hqxUpdateCRC (c ^^^ e) (a ^^^ d) = hqxUpdateCRC c a ^^^ hqxUpdateCRC e d := by
  unfold hqxUpdateCRC
  have h := crcStep_iterate_xor 8 (a, c) (d, e) hc he
  simp only at h
  rw [h]

lemma crcStep_zero_delta (d : Nat) (hd : d ≠ 0) (hlt : d < 65536) :
    (crcStep (d, 0)).1 ≠ 0 ∧ (crcStep (d, 0)).1 < 65536 ∧ (crcStep (d, 0)).2 = 0 := by
  have hsnd : (crcStep (d, 0)).2 = 0 := by simp [crcStep_snd]
  have hor : ((d <<< 1) % 65536) ||| ((0 : Nat) >>> 7) = (d <<< 1) % 65536 := by
    simp
  have hfst : (crcStep (d, 0)).1 =
      if d &&& 32768 ≠ 0 then ((d <<< 1) % 65536) ^^^ CRCCONSTANT
      else (d <<< 1) % 65536 := by
    simp only [crcStep, hor]
  rcases and32768_cases d with h15 | h15
  · have htb : d.testBit 15 = false := by
      have h : (32768 : Nat) = 2 ^ 15 := by norm_num
      rw [h, Nat.and_two_pow] at h15
      by_contra hc
      rw [Bool.not_eq_false] at hc
      rw [hc] at h15
      norm_num at h15
    have hdlt : d < 32768 := by
      by_contra hge
      push_neg at hge
      have : d.testBit 15 = true := by
        simp only [Nat.testBit_to_div_mod, decide_eq_true_eq]
        have : d / 2 ^ 15 = 1 := by
          have : (2 : Nat) ^ 15 = 32768 := by norm_num
          omega
        omega
      rw [this] at htb
      exact Bool.noConfusion htb
    rw [hfst, if_neg (by simpa using h15), Nat.shiftLeft_eq]
    have hd2 : d * 2 ^ 1 = 2 * d := by ring
    rw [hd2, Nat.mod_eq_of_lt (by omega)]
    exact ⟨by omega, by omega, hsnd⟩
  · have hodd : (((d <<< 1) % 65536) ^^^ CRCCONSTANT).testBit 0 = true := by
      have hc0 : (CRCCONSTANT).testBit 0 = true := by decide
      simp only [Nat.testBit_xor, testBit0_shl1_mod, hc0, Bool.false_xor]
    refine ⟨?_, ?_, hsnd⟩
    · rw [hfst, if_pos (by simp [h15])]
      intro h0
      rw [h0] at hodd
      simp [Nat.zero_testBit] at hodd
    · rw [hfst, if_pos (by simp [h15])]
      have h16 : (65536 : Nat) = 2 ^ 16 := by norm_num
      rw [h16]
      exact Nat.xor_lt_two_pow (by rw [← h16]; exact Nat.mod_lt _ (by norm_num))
        (by norm_num [CRCCONSTANT])

lemma crcStep_iterate_zero_delta (k : Nat) :
    ∀ d, d ≠ 0 → d < 65536 →
      (crcStep^[k] (d, 0)).1 ≠ 0 ∧ (crcStep^[k] (d, 0)).1 < 65536 ∧
        (crcStep^[k] (d, 0)).2 = 0 := by
  induction k with
  | zero => intro d hd hlt; exact ⟨hd, hlt, rfl⟩
  | succ k ih =>
    intro d hd hlt
    obtain ⟨h1, h2, h3⟩ := crcStep_zero_delta d hd hlt
    have hpair : crcStep (d, 0) = ((crcStep (d, 0)).1, 0) := by
      rw [Prod.ext_iff]
      exact ⟨rfl, h3⟩
    rw [Function.iterate_succ_apply, hpair]
    exact ih _ h1 h2

/-- Feeding a zero byte maps a nonzero register delta to a nonzero
register delta (multiplication by `x⁸` modulo the CRC polynomial). -/
lemma hqxUpdateCRC_zero_delta (d : Nat) (hd : d ≠ 0) (hlt : d < 65536) :
    hqxUpdateCRC 0 d ≠ 0 ∧ hqxUpdateCRC 0 d < 65536 := by
  obtain ⟨h1, h2, -⟩ := crcStep_iterate_zero_delta 8 d hd hlt
  exact ⟨h1, h2⟩

/-- The CRC register after `hqxUpdateCRC` has run over a byte list. -/
def crcFoldBytes (crc : Nat) (l : List Nat) : Nat :=
  l.foldl (fun a b => hqxUpdateCRC b a) crc

lemma crcFoldBytes_xor_delta :
    ∀ (l : List Nat) (a d : Nat), (∀ b ∈ l, b < 256) → d ≠ 0 → d < 65536 →
      ∃ d2, d2 ≠ 0 ∧ d2 < 65536 ∧
        crcFoldBytes (a ^^^ d) l = crcFoldBytes a l ^^^ d2 := by
  intro l
  induction l with
  | nil => intro a d hb hd hlt; exact ⟨d, hd, hlt, rfl⟩
  | cons b t ih =>
    intro a d hb hd hlt
    have hbyte : b < 256 := hb b (by simp)
    have hupd : hqxUpdateCRC b (a ^^^ d) = hqxUpdateCRC b a ^^^ hqxUpdateCRC 0 d := by
      have h := hqxUpdateCRC_xor b 0 a d hbyte (by norm_num)
      simpa using h
    obtain ⟨hz1, hz2⟩ := hqxUpdateCRC_zero_delta d hd hlt
    have hstep : crcFoldBytes (a ^^^ d) (b :: t) =
        crcFoldBytes (hqxUpdateCRC b a ^^^ hqxUpdateCRC 0 d) t := by
      show crcFoldBytes (hqxUpdateCRC b (a ^^^ d)) t = _
      rw [hupd]
    rw [hstep]
    have ht : ∀ x ∈ t, x < 256 := fun x hx => hb x (by simp [hx])
    obtain ⟨d2, h1, h2, h3⟩ := ih (hqxUpdateCRC b a) (hqxUpdateCRC 0 d) ht hz1 hz2
    exact ⟨d2, h1, h2, h3⟩

set_option maxRecDepth 4096 in
lemma flip_byte_delta : ∀ k, k < 8 →
    hqxUpdateCRC (2 ^ k) 0 ≠ 0 ∧ hqxUpdateCRC (2 ^ k) 0 < 65536 := by decide

/-- Flipping any single bit of any byte fed to the CRC accumulator
changes the final register value. -/
lemma crcFoldBytes_single_bit_flip (crc : Nat) (msg : List Nat) (i k : Nat)
    (hbytes : ∀ b ∈ msg, b < 256) (hi : i < msg.length) (hk : k < 8) :
    crcFoldBytes crc (msg.set i (msg.getD i 0 ^^^ 2 ^ k)) ≠ crcFoldBytes crc msg := by
  have hset : msg.set i (msg.getD i 0 ^^^ 2 ^ k) =
      msg.take i ++ (msg.getD i 0 ^^^ 2 ^ k) :: msg.drop (i + 1) :=
    List.set_eq_take_cons_drop _ hi
  have hmsg : msg = msg.take i ++ msg.getD i 0 :: msg.drop (i + 1) := by
    conv_lhs => rw [← List.take_append_drop i msg]
    rw [List.drop_eq_getElem_cons hi, List.getD_eq_getElem _ _ hi]
  have hfold : ∀ (x : Nat) , crcFoldBytes crc (msg.take i ++ x :: msg.drop (i + 1)) =
      crcFoldBytes (hqxUpdateCRC x (crcFoldBytes crc (msg.take i))) (msg.drop (i + 1)) := by
    intro x
    unfold crcFoldBytes
    rw [List.foldl_append]
    rfl
  rw [hset, hfold]
  conv_rhs => rw [hmsg, hfold]
  set A := crcFoldBytes crc (msg.take i) with hA
  have hx : msg.getD i 0 < 256 := by
    rw [List.getD_eq_getElem _ _ hi]
    exact hbytes _ (List.getElem_mem hi)
  have h2k : (2 : Nat) ^ k < 256 := by
    calc (2 : Nat) ^ k < 2 ^ 8 := Nat.pow_lt_pow_right (by norm_num) hk
    _ = 256 := by norm_num
  have hupd : hqxUpdateCRC (msg.getD i 0 ^^^ 2 ^ k) A =
      hqxUpdateCRC (msg.getD i 0) A ^^^ hqxUpdateCRC (2 ^ k) 0 := by
    have h := hqxUpdateCRC_xor (msg.getD i 0) (2 ^ k) A 0 hx h2k
    simpa using h
  obtain ⟨hd1, hd2⟩ := flip_byte_delta k hk
  have hdropbytes : ∀ b ∈ msg.drop (i + 1), b < 256 :=
    fun b hbmem => hbytes b (List.mem_of_mem_drop hbmem)
  rw [hupd]
  obtain ⟨d2, hne, -, heq⟩ := crcFoldBytes_xor_delta (msg.drop (i + 1))
    (hqxUpdateCRC (msg.getD i 0) A) (hqxUpdateCRC (2 ^ k) 0) hdropbytes hd1 hd2
  rw [heq]
  intro hcontra
  apply hne
  have h2 : crcFoldBytes (hqxUpdateCRC (msg.getD i 0) A) (msg.drop (i + 1)) ^^^
      (crcFoldBytes (hqxUpdateCRC (msg.getD i 0) A) (msg.drop (i + 1)) ^^^ d2) =
      crcFoldBytes (hqxUpdateCRC (msg.getD i 0) A) (msg.drop (i + 1)) ^^^
      crcFoldBytes (hqxUpdateCRC (msg.getD i 0) A) (msg.drop (i + 1)) := by
    rw [hcontra]
  rw [nat_xor_cancel_left, Nat.xor_self] at h2
  exact h2

/-- Every header that `hqxGetHeader` actually returns has passed all of
its checks: the CRC comparison succeeded against the accumulator left in
the final state, neither the flags field nor the stored CRC field was
the `gHqxErr` sentinel (i.e. `0xFFFF`), and both fork lengths are
nonnegative. -/
lemma hqxGetHeader_success_inv (s0 : HqxState) :
    ∀ ho s2, hqxGetHeader s0 = (ho, s2) → ∀ h, ho = some h →
      hqxVerifyCRC ((s2.crc : Int)) h.headerCRC = true ∧
      h.flags ≠ -1 ∧ h.headerCRC ≠ -1 ∧ 0 ≤ h.dataLen ∧ 0 ≤ h.rsrcLen := by
  intro ho s2 hres h hsome
  subst hsome
  simp only [hqxGetHeader] at hres
  rcases e1 : hqxGetByte s0 with ⟨o1, s1⟩
  rw [e1] at hres
  cases o1 with
  | none => exact Option.noConfusion (congrArg Prod.fst hres)
  | some nameLen0 =>
  dsimp only at hres
  by_cases hb : HQXFNAMEMAX ≤ nameLen0 + 1
  case pos => rw [if_pos hb] at hres; exact Option.noConfusion (congrArg Prod.fst hres)
  case neg =>
  rw [if_neg hb] at hres
  rcases e2 : hqxGetBuffer (nameLen0 + 1) s1 with ⟨o2, sa⟩
  rw [e2] at hres
  cases o2 with
  | none => exact Option.noConfusion (congrArg Prod.fst hres)
  | some name =>
  dsimp only at hres
  rcases e3 : hqxGetBuffer 4 sa with ⟨o3, sb⟩
  rw [e3] at hres
  cases o3 with
  | none => exact Option.noConfusion (congrArg Prod.fst hres)
  | some ty =>
  dsimp only at hres
  rcases e4 : hqxGetBuffer 4 sb with ⟨o4, sc⟩
  rw [e4] at hres
  cases o4 with
  | none => exact Option.noConfusion (congrArg Prod.fst hres)
  | some creator =>
  dsimp only at hres
  rcases e5 : hqxGet2Bytes sc with ⟨flags, sd⟩
  rw [e5] at hres
  dsimp only at hres
  by_cases hf : flags = gHqxErr
  case pos => rw [if_pos hf] at hres; exact Option.noConfusion (congrArg Prod.fst hres)
  case neg =>
  rw [if_neg hf] at hres
  rcases e6 : hqxGet4Bytes sd with ⟨dataLen, se⟩
  rw [e6] at hres
  dsimp only at hres
  by_cases hdl : dataLen < 0
  case pos => rw [if_pos hdl] at hres; exact Option.noConfusion (congrArg Prod.fst hres)
  case neg =>
  rw [if_neg hdl] at hres
  rcases e7 : hqxGet4Bytes se with ⟨rsrcLen, sf⟩
  rw [e7] at hres
  dsimp only at hres
  by_cases hrl : rsrcLen < 0
  case pos => rw [if_pos hrl] at hres; exact Option.noConfusion (congrArg Prod.fst hres)
  case neg =>
  rw [if_neg hrl] at hres
  rcases e8 : hqxGet2BytesWithOptions OPT_EXCLUDE_FROM_CRC sf with ⟨headerCRC, sg⟩
  rw [e8] at hres
  dsimp only at hres
  by_cases hhc : headerCRC = gHqxErr
  case pos => rw [if_pos hhc] at hres; exact Option.noConfusion (congrArg Prod.fst hres)
  case neg =>
  rw [if_neg hhc] at hres
  by_cases hv : hqxVerifyCRC ((sg.crc : Int)) headerCRC = true
  case neg =>
    rw [if_neg hv] at hres
    exact Option.noConfusion (congrArg Prod.fst hres)
  case pos =>
  rw [if_pos hv] at hres
  rw [Prod.mk.injEq, Option.some.injEq] at hres
  obtain ⟨hh, hs⟩ := hres
  subst hs
  subst hh
  refine ⟨hv, ?_, ?_, ?_, ?_⟩
  · simpa [gHqxErr] using hf
  · simpa [gHqxErr] using hhc
  · show (0 : Int) ≤ dataLen
    omega
  · show (0 : Int) ≤ rsrcLen
    omega

/-- A fresh decoder state over a given unpacked byte stream
(`hqxInitFileHandle` zeroes the CRC and the run-length fields). -/
def mkHqxState (l : List Nat) : HqxState := ⟨l, 0, 0, 0, 0⟩

/-- A conforming header stream: name length 2, name "AB\0", type "ABCD",
creator "EFGH", flags 0, dataLen 40, rsrcLen 0, correct header CRC
(bytes 5, 130), followed by 16 bytes of fork data ending in 168, 126. -/
def hqxStream3 : List Nat :=
  [2, 65, 66, 0, 65, 66, 67, 68, 69, 70, 71, 72, 0, 0, 0, 0, 0, 40, 0, 0, 0, 0,
   5, 130, 0, 0, 0, 0, 0, 0, 0, 0, 0, 0, 0, 0, 0, 0, 168, 126]

/-- A header stream whose 4-byte data-fork length field is
`FF FF FF FF`, with a correct header CRC (bytes 174, 38). -/
def hqxStream7 : List Nat :=
  [1, 65, 0, 65, 66, 67, 68, 69, 70, 71, 72, 0, 0, 255, 255, 255, 255,
   0, 0, 0, 0, 174, 38]

set_option maxRecDepth 1000000 in
/-- C3 counterexample: `hqxStream3` is accepted (its stored CRC is the
accumulator value, as a conforming encoder produces), yet flipping a
single bit of its header bytes — bit 4 of the name-length byte — yields
a stream that `hqxGetHeader` again accepts: the flip shifts the field
boundaries so that a different CRC field is compared, and decoding does
not hard-fail. -/
theorem hqx_crc_bitflip_counterexample :
    (hqxGetHeader (mkHqxState hqxStream3)).1.isSome = true ∧
    hqxStream3.getD 0 0 ^^^ 2 ^ 4 ≠ hqxStream3.getD 0 0 ∧
    (hqxGetHeader (mkHqxState
      (hqxStream3.set 0 (hqxStream3.getD 0 0 ^^^ 2 ^ 4)))).1.isSome = true := by
  exact ⟨by decide, by decide, by decide⟩

/-- C3 (amended): the CRC check compares the bit-serial polynomial-
`0x1021` accumulator (fed the CRC field as zeros) to the stored header
CRC as an unsigned 16-bit value; a header whose stored CRC matches the
accumulator (as a conforming encoder writes) verifies; hqxGetHeader
returns a header only when the comparison succeeded; and flipping any
single bit of the bytes fed to the accumulator changes its value, so
any flip that leaves the field boundaries unchanged is caught — a flip
in the name-length byte, however, shifts the field boundaries and can
still decode (see the counterexample). -/
theorem hqx_crc_verification_amended :
    (∀ c : Nat, hqxVerifyCRC ((c % 65536 : Nat) : Int) (toShort c) = true)
    ∧ (∀ (s0 : HqxState) (ho : Option HqxHeader) (s2 : HqxState),
        hqxGetHeader s0 = (ho, s2) → ∀ h, ho = some h →
          hqxVerifyCRC ((s2.crc : Int)) h.headerCRC = true)
    ∧ (∀ (crc : Nat) (msg : List Nat) (i k : Nat),
        (∀ b ∈ msg, b < 256) → i < msg.length → k < 8 →
        crcFoldBytes crc (msg.set i (msg.getD i 0 ^^^ 2 ^ k)) ≠
          crcFoldBytes crc msg) := by
  refine ⟨?_, ?_, ?_⟩
  · intro c
    have h : ((c : Nat) : Int) % 65536 = toShort c % 65536 := by
      unfold toShort
      split_ifs with h1 <;> push_cast <;> omega
    simp [hqxVerifyCRC, h]
  · intro s0 ho s2 hres h hsome
    exact (hqxGetHeader_success_inv s0 ho s2 hres h hsome).1
  · exact crcFoldBytes_single_bit_flip

theorem hqx_crc_verification_amended_witness :
    hqxVerifyCRC ((1410 % 65536 : Nat) : Int) (toShort 1410) = true ∧
    crcFoldBytes 0 ([(7 : Nat)].set 0 (([(7 : Nat)].getD 0 0) ^^^ 2 ^ 0)) ≠
      crcFoldBytes 0 [(7 : Nat)] := by
  exact ⟨hqx_crc_verification_amended.1 1410,
    hqx_crc_verification_amended.2.2 0 [7] 0 0 (by decide) (by decide) (by decide)⟩

set_option maxRecDepth 1000000 in
/-- C7 counterexample: an armor whose 4-byte data-fork length field is
`FF FF FF FF` — negative as a signed 32-bit value — is not rejected:
`hqxGetHeader` accepts it and reports `dataLen = 4294967295`, because
the C `long` is 64-bit and four bytes can never make it negative. -/
theorem hqx_forklen_accepts_ffffffff :
    ((hqxGetHeader (mkHqxState hqxStream7)).1.map (fun h => h.dataLen)) =
      some 4294967295 ∧ ((2147483648 : Int) ≤ 4294967295) := by
  exact ⟨by decide, by decide⟩

/-- C7 (amended): the fork lengths are decoded big-endian into a 64-bit
signed `long`, so `hqxGet4Bytes` returns either the `gHqxErr` end-of-
input sentinel or a value in `[0, 2^32)`; the `< 0` checks in
`hqxGetHeader` therefore only catch truncated reads, and every header
the decoder accepts has `dataLen ≥ 0` and `rsrcLen ≥ 0` — a length
field with its top bit set is accepted as a large positive value, not
rejected. -/
theorem hqx_forklen_nonnegative_amended :
    (∀ (s0 : HqxState) (ho : Option HqxHeader) (s2 : HqxState),
        hqxGetHeader s0 = (ho, s2) → ∀ h, ho = some h →
          0 ≤ h.dataLen ∧ 0 ≤ h.rsrcLen)
    ∧ (∀ s : HqxState, (hqxGet4Bytes s).1 = gHqxErr ∨
        (0 ≤ (hqxGet4Bytes s).1 ∧ (hqxGet4Bytes s).1 < 4294967296)) := by
  constructor
  · intro s0 ho s2 hres h hsome
    obtain ⟨-, -, -, h4, h5⟩ := hqxGetHeader_success_inv s0 ho s2 hres h hsome
    exact ⟨h4, h5⟩
  · intro s
    rcases hres : hqxGet4Bytes s with ⟨v, sF⟩
    dsimp only
    unfold hqxGet4Bytes at hres
    rcases e1 : hqxGetByte s with ⟨o1, s1⟩
    rw [e1] at hres
    cases o1 with
    | none => cases hres; left; rfl
    | some c1 =>
    dsimp only at hres
    rcases e2 : hqxGetByte s1 with ⟨o2, s2⟩
    rw [e2] at hres
    cases o2 with
    | none => cases hres; left; rfl
    | some c2 =>
    dsimp only at hres
    rcases e3 : hqxGetByte s2 with ⟨o3, s3⟩
    rw [e3] at hres
    cases o3 with
    | none => cases hres; left; rfl
    | some c3 =>
    dsimp only at hres
    rcases e4 : hqxGetByte s3 with ⟨o4, s4⟩
    rw [e4] at hres
    cases o4 with
    | none => cases hres; left; rfl
    | some c4 =>
    dsimp only at hres
    cases hres
    right
    have hb1 : c1 &&& 255 < 256 := by
      have := Nat.and_le_right (n := c1) (m := 255)
      omega
    have hb2 : c2 &&& 255 < 256 := by
      have := Nat.and_le_right (n := c2) (m := 255)
      omega
    have hb3 : c3 &&& 255 < 256 := by
      have := Nat.and_le_right (n := c3) (m := 255)
      omega
    have hb4 : c4 &&& 255 < 256 := by
      have := Nat.and_le_right (n := c4) (m := 255)
      omega
    have hv : ((((c1 &&& 255) <<< 8 ||| (c2 &&& 255)) <<< 8 ||| (c3 &&& 255)) <<< 8
        ||| (c4 &&& 255)) < 4294967296 := by
      rw [shiftLeft8_or _ _ hb2, shiftLeft8_or _ _ hb3, shiftLeft8_or _ _ hb4]
      omega
    constructor
    · exact Int.natCast_nonneg _
    · exact_mod_cast hv

theorem hqx_forklen_nonnegative_amended_witness :
    (hqxGet4Bytes (mkHqxState [255, 255, 255, 255])).1 = gHqxErr ∨
      (0 ≤ (hqxGet4Bytes (mkHqxState [255, 255, 255, 255])).1 ∧
        (hqxGet4Bytes (mkHqxState [255, 255, 255, 255])).1 < 4294967296) :=
  hqx_forklen_nonnegative_amended.2 (mkHqxState [255, 255, 255, 255])

set_option maxRecDepth 1000000 in
/-- C10: `hqxGet2BytesWithOptions` returns the same value, the `short`
`-1`, both at end of input and for the legitimate field value `0xFFFF`;
and `hqxGetHeader` treats that value as the error sentinel, so no header
it returns ever carries a flags field or stored-CRC field equal to
`0xFFFF` — such streams are rejected even when otherwise well-formed. -/
theorem hqx_ffff_fields_rejected :
    (hqxGet2BytesWithOptions 0 (mkHqxState [255, 255])).1 = -1 ∧
    (hqxGet2BytesWithOptions 0 (mkHqxState [])).1 = -1 ∧
    (∀ (s0 : HqxState) (ho : Option HqxHeader) (s2 : HqxState),
        hqxGetHeader s0 = (ho, s2) → ∀ h, ho = some h →
          h.flags ≠ -1 ∧ h.headerCRC ≠ -1) := by
  refine ⟨by decide, by decide, ?_⟩
  intro s0 ho s2 hres h hsome
  obtain ⟨-, h2, h3, -, -⟩ := hqxGetHeader_success_inv s0 ho s2 hres h hsome
  exact ⟨h2, h3⟩

set_option maxRecDepth 1000000 in
theorem hqx_ffff_fields_rejected_witness :
    ∃ h s2, hqxGetHeader (mkHqxState hqxStream3) = (some h, s2) ∧
      h.flags ≠ -1 ∧ h.headerCRC ≠ -1 := by
  rcases hres : hqxGetHeader (mkHqxState hqxStream3) with ⟨ho, s2⟩
  have hsome : ho.isSome = true := by
    have : (hqxGetHeader (mkHqxState hqxStream3)).1.isSome = true := by decide
    rw [hres] at this
    exact this
  obtain ⟨h, hh⟩ := Option.isSome_iff_exists.mp hsome
  refine ⟨h, s2, by rw [hh], ?_⟩
  exact hqx_ffff_fields_rejected.2.2 (mkHqxState hqxStream3) ho s2 hres h hh

/-- `gHqxValidChars`: the 64-character BinHex alphabet, as byte codes. -/
def gHqxValidChars : List Nat :=
  [33, 34, 35, 36, 37, 38, 39, 40, 41, 42, 43, 44, 45,
   48, 49, 50, 51, 52, 53, 54, 56, 57,
   64,
   65, 66, 67, 68, 69, 70, 71, 72, 73, 74, 75, 76, 77, 78,
   80, 81, 82, 83, 84, 85, 86,
   88, 89, 90, 91,
   96,
   97, 98, 99, 100, 101, 102,
   104, 105, 106, 107, 108, 109,
   112, 113, 114]

/-- `strchr(gHqxValidChars, readbuf) != NULL`: a byte of the alphabet —
or NUL, which `strchr` also finds (the terminator is part of the
searched string). -/
def hqxFindValid (c : Nat) : Bool := c = 0 || gHqxValidChars.contains c

/-- A line delimiter in `hqxFindHeader` (`'\n'` or `'\r'`). -/
def hqxIsNl (c : Nat) : Bool := c = 10 || c = 13

/-- The scanning loop of `hqxFindHeader` over the raw file bytes, with
the `lineStart` and `headerStart` flags of the source.  On success the
stream is rewound one byte, so the returned suffix starts at the matched
character; `none` is the `gHqxErr` outcome at end of input. -/
def hqxFindHeaderLoop : Bool → Bool → List Nat → Option (List Nat)
  | _, _, [] => none
  | lineStart, headerStart, c :: rest =>
    if hqxIsNl c then hqxFindHeaderLoop true headerStart rest
    else if c = 58 then hqxFindHeaderLoop lineStart (headerStart || lineStart) rest
    else if headerStart && hqxFindValid c then some (c :: rest)
    else hqxFindHeaderLoop false false rest

/-- `hqxFindHeader`: both flags start clear. -/
def hqxFindHeader (input : List Nat) : Option (List Nat) :=
  hqxFindHeaderLoop false false input

/-- The SEARCH criterion exactly as the claim words it: split the input
into lines at `'\n'`/`'\r'` and succeed when some line starts with `':'`
immediately followed by a character of the 64-character alphabet. -/
def hqxSplitLines : List Nat → List (List Nat)
  | [] => [[]]
  | c :: rest =>
    match hqxSplitLines rest with
    | [] => [[]]
    | l :: ls => if hqxIsNl c then [] :: l :: ls else (c :: l) :: ls

/-- The claim's success criterion (see `hqxSplitLines`). -/
def hqxFindHeaderClaim (input : List Nat) : Bool :=
  (hqxSplitLines input).any fun l =>
    match l with
    | c1 :: c2 :: _ => c1 = 58 && gHqxValidChars.contains c2
    | _ => false

/-- C8 counterexample: the code's SEARCH differs from the claim in both
directions.  `":A"` has a line starting with `':'` immediately followed
by the alphabet character `'A'`, yet the scanner fails (a `':'` on the
very first line, with no preceding newline, never arms the match);
`"\n::A"` has no line whose second character is in the alphabet, yet the
scanner succeeds (colons and newlines after an armed `':'` do not disarm
it); and `"\n:<NUL>"` succeeds on a NUL byte, which is not in the
64-character alphabet (`strchr` matches its terminator). -/
theorem hqx_findheader_counterexample :
    hqxFindHeaderClaim [58, 65] = true ∧ hqxFindHeader [58, 65] = none ∧
    hqxFindHeaderClaim [10, 58, 58, 65] = false ∧
    hqxFindHeader [10, 58, 58, 65] = some [65] ∧
    hqxFindHeaderClaim [10, 58, 0] = false ∧
    hqxFindHeader [10, 58, 0] = some [0] := by
  exact ⟨by decide, by decide, by decide, by decide, by decide, by decide⟩

/-- A byte that keeps an armed `':'` armed: inside the scan, newlines
leave `headerStart` untouched and further colons can only set it. -/
def HqxNlColon (c : Nat) : Prop := hqxIsNl c = true ∨ c = 58

/-- A byte accepted as the first header character: not a line delimiter,
not a colon, and found by `strchr` in `gHqxValidChars` (NUL included). -/
def HqxTarget (c : Nat) : Prop :=
  hqxIsNl c = false ∧ c ≠ 58 ∧ hqxFindValid c = true

/-- `lineStart` holds when the scan reaches index `i`, given the
incoming flag: either the flag was set and every byte so far is a colon,
or some earlier newline is followed only by colons up to `i`. -/
def HqxLineOK (ls : Bool) (l : List Nat) (i : Nat) : Prop :=
  (ls = true ∧ ∀ k, k < i → l.getD k 0 = 58)
  ∨ (∃ m, m < i ∧ hqxIsNl (l.getD m 0) = true ∧
      ∀ k, m < k → k < i → l.getD k 0 = 58)

/-- `headerStart` holds when the scan reaches index `j`, given the
incoming flags. -/
def HqxArmed (ls hs : Bool) (l : List Nat) (j : Nat) : Prop :=
  (hs = true ∧ ∀ k, k < j → HqxNlColon (l.getD k 0))
  ∨ (∃ i, i < j ∧ l.getD i 0 = 58 ∧
      (∀ k, i < k → k < j → HqxNlColon (l.getD k 0)) ∧ HqxLineOK ls l i)

/-- The scan, entered with the given flags, accepts at index `j`. -/
def HqxFoundAt (ls hs : Bool) (l : List Nat) (j : Nat) : Prop :=
  j < l.length ∧ HqxTarget (l.getD j 0) ∧ HqxArmed ls hs l j

lemma hqxNl_ne_colon {c : Nat} (h : hqxIsNl c = true) : c ≠ 58 := by
  simp [hqxIsNl] at h
  omega

lemma hqxLineOK_zero (ls : Bool) (l : List Nat) :
    HqxLineOK ls l 0 ↔ ls = true := by
  constructor
  · rintro (⟨h, -⟩ | ⟨m, hm, -⟩)
    · exact h
    · omega
  · intro h
    exact Or.inl ⟨h, fun k hk => absurd hk (by omega)⟩

lemma hqxLineOK_cons_nl {c : Nat} (hnl : hqxIsNl c = true) (ls : Bool)
    (t : List Nat) (i : Nat) :
    HqxLineOK ls (c :: t) (i + 1) ↔ HqxLineOK true t i := by
  constructor
  · rintro (⟨-, hcols⟩ | ⟨m, hmi, hm, hcols⟩)
    · have h0 : c = 58 := by simpa using hcols 0 (Nat.succ_pos i)
      exact absurd h0 (hqxNl_ne_colon hnl)
    · cases m with
      | zero =>
        refine Or.inl ⟨rfl, fun k hk => ?_⟩
        simpa using hcols (k + 1) (Nat.succ_pos k) (by omega)
      | succ m =>
        refine Or.inr ⟨m, by omega, by simpa using hm, fun k h1 h2 => ?_⟩
        simpa using hcols (k + 1) (by omega) (by omega)
  · rintro (⟨-, hcols⟩ | ⟨m, hmi, hm, hcols⟩)
    · refine Or.inr ⟨0, Nat.succ_pos i, by simpa using hnl, fun k h1 h2 => ?_⟩
      cases k with
      | zero => omega
      | succ k => simpa using hcols k (by omega)
    · refine Or.inr ⟨m + 1, by omega, by simpa using hm, fun k h1 h2 => ?_⟩
      cases k with
      | zero => omega
      | succ k => simpa using hcols k (by omega) (by omega)

lemma hqxLineOK_cons_colon (ls : Bool) (t : List Nat) (i : Nat) :
    HqxLineOK ls (58 :: t) (i + 1) ↔ HqxLineOK ls t i := by
  constructor
  · rintro (⟨hls, hcols⟩ | ⟨m, hmi, hm, hcols⟩)
    · refine Or.inl ⟨hls, fun k hk => ?_⟩
      simpa using hcols (k + 1) (by omega)
    · cases m with
      | zero =>
        have : hqxIsNl 58 = true := by simpa using hm
        exact absurd this (by decide)
      | succ m =>
        refine Or.inr ⟨m, by omega, by simpa using hm, fun k h1 h2 => ?_⟩
        simpa using hcols (k + 1) (by omega) (by omega)
  · rintro (⟨hls, hcols⟩ | ⟨m, hmi, hm, hcols⟩)
    · refine Or.inl ⟨hls, fun k hk => ?_⟩
      cases k with
      | zero => simp
      | succ k => simpa using hcols k (by omega)
    · refine Or.inr ⟨m + 1, by omega, by simpa using hm, fun k h1 h2 => ?_⟩
      cases k with
      | zero => omega
      | succ k => simpa using hcols k (by omega) (by omega)

lemma hqxLineOK_cons_other {c : Nat} (hnl : hqxIsNl c = false)
    (hc : c ≠ 58) (ls : Bool) (t : List Nat) (i : Nat) :
    HqxLineOK ls (c :: t) (i + 1) ↔ HqxLineOK false t i := by
  constructor
  · rintro (⟨-, hcols⟩ | ⟨m, hmi, hm, hcols⟩)
    · have h0 : c = 58 := by simpa using hcols 0 (Nat.succ_pos i)
      exact absurd h0 hc
    · cases m with
      | zero =>
        have : hqxIsNl c = true := by simpa using hm
        rw [hnl] at this
        exact absurd this (by decide)
      | succ m =>
        refine Or.inr ⟨m, by omega, by simpa using hm, fun k h1 h2 => ?_⟩
        simpa using hcols (k + 1) (by omega) (by omega)
  · rintro (⟨hf, -⟩ | ⟨m, hmi, hm, hcols⟩)
    · exact absurd hf (by decide)
    · refine Or.inr ⟨m + 1, by omega, by simpa using hm, fun k h1 h2 => ?_⟩
      cases k with
      | zero => omega
      | succ k => simpa using hcols k (by omega) (by omega)

lemma hqxArmed_zero (ls hs : Bool) (l : List Nat) :
    HqxArmed ls hs l 0 ↔ hs = true := by
  constructor
  · rintro (⟨h, -⟩ | ⟨i, hi, -⟩)
    · exact h
    · omega
  · intro h
    exact Or.inl ⟨h, fun k hk => absurd hk (by omega)⟩

lemma hqxArmed_cons_nl {c : Nat} (hnl : hqxIsNl c = true) (ls hs : Bool)
    (t : List Nat) (j : Nat) :
    HqxArmed ls hs (c :: t) (j + 1) ↔ HqxArmed true hs t j := by
  constructor
  · rintro (⟨hhs, hball⟩ | ⟨i, hij, hcol, hbet, hline⟩)
    · refine Or.inl ⟨hhs, fun k hk => ?_⟩
      simpa [HqxNlColon] using hball (k + 1) (by omega)
    · cases i with
      | zero =>
        have h0 : c = 58 := by simpa using hcol
        exact absurd h0 (hqxNl_ne_colon hnl)
      | succ i =>
        refine Or.inr ⟨i, by omega, by simpa using hcol, fun k h1 h2 => ?_,
          (hqxLineOK_cons_nl hnl ls t i).mp hline⟩
        simpa [HqxNlColon] using hbet (k + 1) (by omega) (by omega)
  · rintro (⟨hhs, hball⟩ | ⟨i, hij, hcol, hbet, hline⟩)
    · refine Or.inl ⟨hhs, fun k hk => ?_⟩
      cases k with
      | zero => exact Or.inl (by simpa using hnl)
      | succ k => simpa [HqxNlColon] using hball k (by omega)
    · refine Or.inr ⟨i + 1, by omega, by simpa using hcol, fun k h1 h2 => ?_,
        (hqxLineOK_cons_nl hnl ls t i).mpr hline⟩
      cases k with
      | zero => omega
      | succ k => simpa [HqxNlColon] using hbet k (by omega) (by omega)

lemma hqxArmed_cons_colon (ls hs : Bool) (t : List Nat) (j : Nat) :
    HqxArmed ls hs (58 :: t) (j + 1) ↔ HqxArmed ls (hs || ls) t j := by
  constructor
  · rintro (⟨hhs, hball⟩ | ⟨i, hij, hcol, hbet, hline⟩)
    · refine Or.inl ⟨by simp [hhs], fun k hk => ?_⟩
      simpa [HqxNlColon] using hball (k + 1) (by omega)
    · cases i with
      | zero =>
        have hls : ls = true := (hqxLineOK_zero ls (58 :: t)).mp hline
        refine Or.inl ⟨by simp [hls], fun k hk => ?_⟩
        simpa [HqxNlColon] using hbet (k + 1) (by omega) (by omega)
      | succ i =>
        refine Or.inr ⟨i, by omega, by simpa using hcol, fun k h1 h2 => ?_,
          (hqxLineOK_cons_colon ls t i).mp hline⟩
        simpa [HqxNlColon] using hbet (k + 1) (by omega) (by omega)
  · rintro (⟨hor, hball⟩ | ⟨i, hij, hcol, hbet, hline⟩)
    · cases hs with
      | true =>
        refine Or.inl ⟨rfl, fun k hk => ?_⟩
        cases k with
        | zero => exact Or.inr (by simp)
        | succ k => simpa [HqxNlColon] using hball k (by omega)
      | false =>
        have hls : ls = true := by simpa using hor
        refine Or.inr ⟨0, by omega, by simp, fun k h1 h2 => ?_,
          (hqxLineOK_zero ls (58 :: t)).mpr hls⟩
        cases k with
        | zero => omega
        | succ k => simpa [HqxNlColon] using hball k (by omega)
    · refine Or.inr ⟨i + 1, by omega, by simpa using hcol, fun k h1 h2 => ?_,
        (hqxLineOK_cons_colon ls t i).mpr hline⟩
      cases k with
      | zero => omega
      | succ k => simpa [HqxNlColon] using hbet k (by omega) (by omega)

lemma hqxArmed_cons_other {c : Nat} (hnl : hqxIsNl c = false)
    (hc : c ≠ 58) (ls hs : Bool) (t : List Nat) (j : Nat) :
    HqxArmed ls hs (c :: t) (j + 1) ↔ HqxArmed false false t j := by
  constructor
  · rintro (⟨hhs, hball⟩ | ⟨i, hij, hcol, hbet, hline⟩)
    · have h0 : HqxNlColon c := by simpa [HqxNlColon] using hball 0 (by omega)
      rcases h0 with h0 | h0
      · rw [hnl] at h0
        exact absurd h0 (by decide)
      · exact absurd h0 hc
    · cases i with
      | zero =>
        have h0 : c = 58 := by simpa using hcol
        exact absurd h0 hc
      | succ i =>
        refine Or.inr ⟨i, by omega, by simpa using hcol, fun k h1 h2 => ?_,
          (hqxLineOK_cons_other hnl hc ls t i).mp hline⟩
        simpa [HqxNlColon] using hbet (k + 1) (by omega) (by omega)
  · rintro (⟨hf, -⟩ | ⟨i, hij, hcol, hbet, hline⟩)
    · exact absurd hf (by decide)
    · refine Or.inr ⟨i + 1, by omega, by simpa using hcol, fun k h1 h2 => ?_,
        (hqxLineOK_cons_other hnl hc ls t i).mpr hline⟩
      cases k with
      | zero => omega
      | succ k => simpa [HqxNlColon] using hbet k (by omega) (by omega)

lemma hqxFoundAt_cons_nl {c : Nat} (hnl : hqxIsNl c = true) (ls hs : Bool)
    (t : List Nat) (j : Nat) :
    HqxFoundAt ls hs (c :: t) (j + 1) ↔ HqxFoundAt true hs t j := by
  unfold HqxFoundAt
  rw [hqxArmed_cons_nl hnl]
  constructor
  · rintro ⟨h1, h2, h3⟩
    exact ⟨by simpa using h1, by simpa using h2, h3⟩
  · rintro ⟨h1, h2, h3⟩
    exact ⟨by simpa using h1, by simpa using h2, h3⟩

lemma hqxFoundAt_zero_nl {c : Nat} (hnl : hqxIsNl c = true) (ls hs : Bool)
    (t : List Nat) : ¬ HqxFoundAt ls hs (c :: t) 0 := by
  rintro ⟨-, htgt, -⟩
  have h0 : hqxIsNl c = false := by simpa [HqxTarget] using htgt.1
  rw [hnl] at h0
  exact absurd h0 (by decide)

lemma hqxFoundAt_cons_colon (ls hs : Bool) (t : List Nat) (j : Nat) :
    HqxFoundAt ls hs (58 :: t) (j + 1) ↔ HqxFoundAt ls (hs || ls) t j := by
  unfold HqxFoundAt
  rw [hqxArmed_cons_colon]
  constructor
  · rintro ⟨h1, h2, h3⟩
    exact ⟨by simpa using h1, by simpa using h2, h3⟩
  · rintro ⟨h1, h2, h3⟩
    exact ⟨by simpa using h1, by simpa using h2, h3⟩

lemma hqxFoundAt_zero_colon (ls hs : Bool) (t : List Nat) :
    ¬ HqxFoundAt ls hs (58 :: t) 0 := by
  rintro ⟨-, htgt, -⟩
  have h0 : (58 : Nat) ≠ 58 := by simpa [HqxTarget] using htgt.2.1
  exact h0 rfl

lemma hqxFoundAt_cons_other {c : Nat} (hnl : hqxIsNl c = false)
    (hc : c ≠ 58) (ls hs : Bool) (t : List Nat) (j : Nat) :
    HqxFoundAt ls hs (c :: t) (j + 1) ↔ HqxFoundAt false false t j := by
  unfold HqxFoundAt
  rw [hqxArmed_cons_other hnl hc]
  constructor
  · rintro ⟨h1, h2, h3⟩
    exact ⟨by simpa using h1, by simpa using h2, h3⟩
  · rintro ⟨h1, h2, h3⟩
    exact ⟨by simpa using h1, by simpa using h2, h3⟩

lemma hqxFoundAt_zero_other {c : Nat} {hs : Bool}
    (hok : ¬ (hs = true ∧ hqxFindValid c = true)) (ls : Bool)
    (t : List Nat) : ¬ HqxFoundAt ls hs (c :: t) 0 := by
  rintro ⟨-, htgt, harm⟩
  have hhs : hs = true := (hqxArmed_zero ls hs (c :: t)).mp harm
  have hv : hqxFindValid c = true := by simpa [HqxTarget] using htgt.2.2
  exact hok ⟨hhs, hv⟩

lemma hqxFindHeaderLoop_cons (ls hs : Bool) (c : Nat) (t : List Nat) :
    hqxFindHeaderLoop ls hs (c :: t) =
      if hqxIsNl c then hqxFindHeaderLoop true hs t
      else if c = 58 then hqxFindHeaderLoop ls (hs || ls) t
      else if hs && hqxFindValid c then some (c :: t)
      else hqxFindHeaderLoop false false t := rfl

lemma hqxFindHeaderLoop_spec (l : List Nat) :
    ∀ ls hs : Bool,
      (∃ j, HqxFoundAt ls hs l j ∧ hqxFindHeaderLoop ls hs l = some (l.drop j))
      ∨ ((∀ j, ¬ HqxFoundAt ls hs l j) ∧ hqxFindHeaderLoop ls hs l = none) := by
  induction l with
  | nil =>
    intro ls hs
    refine Or.inr ⟨fun j hj => ?_, rfl⟩
    have h1 := hj.1
    simp at h1
  | cons c t ih =>
    intro ls hs
    by_cases hnl : hqxIsNl c = true
    · have hloop : hqxFindHeaderLoop ls hs (c :: t) = hqxFindHeaderLoop true hs t := by
        rw [hqxFindHeaderLoop_cons, if_pos hnl]
      rcases ih true hs with ⟨j, hfound, heq⟩ | ⟨hnone, heq⟩
      · exact Or.inl ⟨j + 1, (hqxFoundAt_cons_nl hnl ls hs t j).mpr hfound,
          by rw [hloop, heq, List.drop_succ_cons]⟩
      · refine Or.inr ⟨fun j => ?_, by rw [hloop, heq]⟩
        cases j with
        | zero => exact hqxFoundAt_zero_nl hnl ls hs t
        | succ j => exact fun hf => hnone j ((hqxFoundAt_cons_nl hnl ls hs t j).mp hf)
    · have hnl2 : hqxIsNl c = false := by
        cases h : hqxIsNl c
        · rfl
        · exact absurd h hnl
      by_cases hc : c = 58
      · subst hc
        have hloop : hqxFindHeaderLoop ls hs (58 :: t) =
            hqxFindHeaderLoop ls (hs || ls) t := by
          rw [hqxFindHeaderLoop_cons, if_neg hnl, if_pos rfl]
        rcases ih ls (hs || ls) with ⟨j, hfound, heq⟩ | ⟨hnone, heq⟩
        · exact Or.inl ⟨j + 1, (hqxFoundAt_cons_colon ls hs t j).mpr hfound,
            by rw [hloop, heq, List.drop_succ_cons]⟩
        · refine Or.inr ⟨fun j => ?_, by rw [hloop, heq]⟩
          cases j with
          | zero => exact hqxFoundAt_zero_colon ls hs t
          | succ j => exact fun hf => hnone j ((hqxFoundAt_cons_colon ls hs t j).mp hf)
      · by_cases hok : hs = true ∧ hqxFindValid c = true
        · have htc : HqxTarget c := ⟨hnl2, hc, hok.2⟩
          refine Or.inl ⟨0, ⟨by simp, by simpa using htc,
            (hqxArmed_zero ls hs (c :: t)).mpr hok.1⟩, ?_⟩
          rw [hqxFindHeaderLoop_cons, if_neg hnl, if_neg hc,
            if_pos (by simp [hok.1, hok.2]), List.drop_zero]
        · have hloop : hqxFindHeaderLoop ls hs (c :: t) =
              hqxFindHeaderLoop false false t := by
            rw [hqxFindHeaderLoop_cons, if_neg hnl, if_neg hc, if_neg (by
              intro hand
              rcases Bool.and_eq_true_iff.mp hand with ⟨h1, h2⟩
              exact hok ⟨h1, h2⟩)]
          rcases ih false false with ⟨j, hfound, heq⟩ | ⟨hnone, heq⟩
          · exact Or.inl ⟨j + 1, (hqxFoundAt_cons_other hnl2 hc ls hs t j).mpr hfound,
              by rw [hloop, heq, List.drop_succ_cons]⟩
          · refine Or.inr ⟨fun j => ?_, by rw [hloop, heq]⟩
            cases j with
            | zero => exact hqxFoundAt_zero_other hok ls t
            | succ j =>
              exact fun hf => hnone j ((hqxFoundAt_cons_other hnl2 hc ls hs t j).mp hf)

/-- Self-contained success criterion of the code's SEARCH stage: the
byte at `j` is neither a newline nor a colon and is accepted by the
`strchr` test (alphabet character or NUL); it is preceded by a colon at
some index `i`, itself preceded by a newline at some index `m`, with
only colons strictly between `m` and `i` (so the colon sees
`lineStart == 1`) and only newlines or colons strictly between `i` and
`j` (none of which clears `headerStart`). -/
def HqxHeaderAt (l : List Nat) (j : Nat) : Prop :=
  j < l.length ∧ HqxTarget (l.getD j 0) ∧
  ∃ i m, m < i ∧ i < j ∧ hqxIsNl (l.getD m 0) = true ∧ l.getD i 0 = 58 ∧
    (∀ k, m < k → k < i → l.getD k 0 = 58) ∧
    (∀ k, i < k → k < j → HqxNlColon (l.getD k 0))

lemma hqxFoundAt_false_false (l : List Nat) (j : Nat) :
    HqxFoundAt false false l j ↔ HqxHeaderAt l j := by
  constructor
  · rintro ⟨hlen, htgt, harm⟩
    rcases harm with ⟨hf, -⟩ | ⟨i, hij, hcol, hbet, hline⟩
    · exact absurd hf (by decide)
    · rcases hline with ⟨hf, -⟩ | ⟨m, hmi, hm, hcols⟩
      · exact absurd hf (by decide)
      · exact ⟨hlen, htgt, i, m, hmi, hij, hm, hcol, hcols, hbet⟩
  · rintro ⟨hlen, htgt, i, m, hmi, hij, hm, hcol, hcols, hbet⟩
    exact ⟨hlen, htgt, Or.inr ⟨i, hij, hcol, hbet, Or.inr ⟨m, hmi, hm, hcols⟩⟩⟩

/-- C8 (amended): the SEARCH stage of `hqxGetHeader` succeeds on an
input iff some index `j` satisfies `HqxHeaderAt`: its byte passes the
`strchr` test (64-character alphabet or the NUL terminator) and is
preceded by a line-starting colon with only newlines and colons in
between — not iff some line starts with `':'` followed by an alphabet
character, as the claim reads.  On success the decoder resumes one byte
back, at the matched character. -/
theorem hqx_findheader_characterization (input : List Nat) :
    (∃ j, HqxHeaderAt input j ∧ hqxFindHeader input = some (input.drop j))
    ∨ ((∀ j, ¬ HqxHeaderAt input j) ∧ hqxFindHeader input = none) := by
  rcases hqxFindHeaderLoop_spec input false false with ⟨j, hf, he⟩ | ⟨hn, he⟩
  · exact Or.inl ⟨j, (hqxFoundAt_false_false input j).mp hf, he⟩
  · exact Or.inr ⟨fun j hj => hn j ((hqxFoundAt_false_false input j).mpr hj), he⟩

/-- Witness for `hqx_findheader_characterization` at the concrete input
`"\n:A"`. -/
theorem hqx_findheader_characterization_witness :
    (∃ j, HqxHeaderAt [10, 58, 65] j ∧
      hqxFindHeader [10, 58, 65] = some ([10, 58, 65].drop j))
    ∨ ((∀ j, ¬ HqxHeaderAt [10, 58, 65] j) ∧ hqxFindHeader [10, 58, 65] = none) :=
  hqx_findheader_characterization [10, 58, 65]
